import Mathlib

/-!
Verification of the folder-synchronization script (`sync_script.py`).

The script performs one-way mirroring of a source directory tree onto a
replica tree.  We embed its core shallowly:

* A filesystem node is a regular file (byte content plus a modification
  time), a directory (a listing of named child nodes), or `other` — an
  entry that is neither a regular file nor a directory (a socket, a
  dangling symlink, ...), for which both `os.path.isfile` and
  `os.path.isdir` report `false`.
* MD5 (`calculate_md5`) is abstracted as an arbitrary hash function
  `hash : List Nat → Nat` over the file's byte content; the script reads
  the whole file in chunks, so the digest is a function of the full
  content only.  Hashing a non-file raises `OSError`, modelled as `none`.
* The environment faults the script guards against (`OSError` from
  `os.listdir`, `os.remove`/`shutil.rmtree`, and from hashing/copying a
  single file) are injected through a `Faults` oracle keyed by path.

The recursive pass `sync_folders` is translated function by function:
`create_directory_if_missing`, `remove_outdated_items`, `sync_item`, and
the per-level listing/loop logic of `sync_folders` itself.
-/

namespace SyncScript

/-- Paths are component lists, standing for `os.path.join` chains. -/
abbrev Path := List String

/-- Per-pass counters, the `stats` dictionary
`{'copied': 0, 'updated': 0, 'deleted': 0, 'errors': 0}`. -/
structure SyncStats where
  copied : Nat
  updated : Nat
  deleted : Nat
  errors : Nat
deriving DecidableEq, Repr

/-- Field-wise addition, the `for key in stats: stats[key] += sub_stats[key]`
merge of `sync_item`. -/
def SyncStats.add (a b : SyncStats) : SyncStats :=
  ⟨a.copied + b.copied, a.updated + b.updated, a.deleted + b.deleted,
   a.errors + b.errors⟩

instance : Add SyncStats := ⟨SyncStats.add⟩

/-- The all-zero stats value, the fresh dictionary of `sync_folders`. -/
def SyncStats.zero : SyncStats := ⟨0, 0, 0, 0⟩

@[simp] theorem SyncStats.add_def (a b : SyncStats) :
    a + b = ⟨a.copied + b.copied, a.updated + b.updated, a.deleted + b.deleted,
      a.errors + b.errors⟩ := rfl

/-- A filesystem node: regular file (content bytes and mtime), directory
(named children, in listing order), or an entry of any other kind. -/
inductive Node where
  | file (content : List Nat) (mtime : Nat)
  | dir (entries : List (String × Node))
  | other

/-- Fault oracle for the `OSError`s the script catches: `listFails p` makes
`os.listdir` fail on the directory at `p`; `removeFails p` makes
`os.remove`/`shutil.rmtree` fail on `p`; `itemFails p` makes the hashing or
copying of the single source file at `p` fail. -/
structure Faults where
  listFails : Path → Bool
  removeFails : Path → Bool
  itemFails : Path → Bool

/-- The fault-free environment: every filesystem operation succeeds. -/
def noFaults : Faults := ⟨fun _ => false, fun _ => false, fun _ => false⟩

/-- First entry with the given name in a directory listing
(`os.path.join(dir, name)` resolution). -/
def lookupEntry : List (String × Node) → String → Option Node
  | [], _ => none
  | (m, v) :: rest, n => if m = n then some v else lookupEntry rest n

/-- Write a node at a name: overwrite the existing entry, or append a new
one (the effect of `shutil.copy2`/`os.makedirs` at `join(replica, name)`). -/
def setEntry : List (String × Node) → String → Node → List (String × Node)
  | [], n, v => [(n, v)]
  | (m, w) :: rest, n, v =>
      if m = n then (n, v) :: rest else (m, w) :: setEntry rest n v

/-- Membership of a name in a listing, the `item in source_items` test. -/
def memName : List String → String → Bool
  | [], _ => false
  | m :: rest, n => (m = n) || memName rest n

/-- MD5 of a node under the abstract content hash: defined for regular
files; opening a directory or other special entry raises `OSError` (`none`),
as `calculate_md5` does. -/
def calculate_md5 (hash : List Nat → Nat) : Node → Option Nat
  | Node.file c _ => some (hash c)
  | Node.dir _ => none
  | Node.other => none

/-- Size and modification time, the dictionary built by `get_file_info`
from `os.stat` for a regular file. -/
structure FileInfo where
  size : Nat
  mtime : Nat
deriving DecidableEq, Repr

/-- The script's `get_file_info` on a regular file with the given content
and mtime: `{'size': st_size, 'mtime': st_mtime}`. -/
def get_file_info (content : List Nat) (mtime : Nat) : FileInfo :=
  ⟨content.length, mtime⟩

/-- Ensure a directory exists: `os.makedirs` when the path does not exist,
no-op otherwise.  Returns the node now at the path. -/
def create_directory_if_missing : Option Node → Node
  | none => Node.dir []
  | some n => n

/-- The copy decision of `sync_item` line 130:
`not os.path.exists(replica_path) or calculate_md5(source_path) != calculate_md5(replica_path)`.
Result `none` models an `OSError` raised while hashing (e.g. the replica
counterpart is a directory). -/
def needs_copy (hash : List Nat → Nat) (snode : Node) (rnode : Option Node) :
    Option Bool :=
  match rnode with
  | none => some true
  | some r =>
      match calculate_md5 hash snode, calculate_md5 hash r with
      | some hs, some hr => some (hs != hr)
      | _, _ => none

/-- Orphan removal (`remove_outdated_items`): walk the replica listing; an
entry whose name is absent from the source listing is removed — `os.remove`
for a file, `shutil.rmtree` for a directory, one `deleted` per success and
one `errors` per `OSError` — while an entry that is neither file nor
directory falls through both branches untouched.  Returns the surviving
entries and the stats delta. -/
def remove_outdated_items (F : Faults) (rp : Path) (snames : List String) :
    List (String × Node) → List (String × Node) × SyncStats
  | [] => ([], SyncStats.zero)
  | (name, node) :: rest =>
      let out := remove_outdated_items F rp snames rest
      if memName snames name then ((name, node) :: out.1, out.2)
      else
        match node with
        | Node.file c m =>
            if F.removeFails (rp ++ [name]) then
              ((name, Node.file c m) :: out.1, out.2 + ⟨0, 0, 0, 1⟩)
            else (out.1, out.2 + ⟨0, 0, 1, 0⟩)
        | Node.dir es =>
            if F.removeFails (rp ++ [name]) then
              ((name, Node.dir es) :: out.1, out.2 + ⟨0, 0, 0, 1⟩)
            else (out.1, out.2 + ⟨0, 0, 1, 0⟩)
        | Node.other => ((name, Node.other) :: out.1, out.2)

mutual

/-- One level of `sync_folders` on a source directory already known to hold
the entries `ses` (the recursive call site of `sync_item` always passes a
directory): ensure the replica directory exists, list both sides (one
combined `try`, one `errors` on failure), remove orphans, then run the
source-driven loop. -/
def sync_level (F : Faults) (hash : List Nat → Nat) (sp rp : Path)
    (ses : List (String × Node)) (rep : Option Node) : Node × SyncStats :=
  let r := create_directory_if_missing rep
  if F.listFails sp then (r, ⟨0, 0, 0, 1⟩)
  else
    match r with
    | Node.dir res =>
        if F.listFails rp then (Node.dir res, ⟨0, 0, 0, 1⟩)
        else
          let rem := remove_outdated_items F rp (ses.map Prod.fst) res
          let out := sync_items F hash sp rp ses rem.1
          (Node.dir out.1, rem.2 + out.2)
    | Node.file c m => (Node.file c m, ⟨0, 0, 0, 1⟩)
    | Node.other => (Node.other, ⟨0, 0, 0, 1⟩)
termination_by (sizeOf ses, 1)
decreasing_by
  exact Prod.Lex.right _ (by omega)

/-- The `for item in source_items: sync_item(...)` loop of `sync_folders`,
threading the replica listing and summing the per-entry stats. -/
def sync_items (F : Faults) (hash : List Nat → Nat) (sp rp : Path) :
    List (String × Node) → List (String × Node) →
    List (String × Node) × SyncStats
  | [], res => (res, SyncStats.zero)
  | (name, sn) :: rest, res =>
      let out1 := sync_item F hash sp rp name sn res
      let out2 := sync_items F hash sp rp rest out1.1
      (out2.1, out1.2 + out2.2)
termination_by l res => (sizeOf l, 0)
decreasing_by
  all_goals simp_wf
  all_goals apply Prod.Lex.left
  all_goals omega

/-- `sync_item` for the source entry `name`/`snode` against the replica
listing `res`.  File branch: on an injected per-entry fault or a hashing
`OSError`, one `errors`; otherwise copy when `needs_copy` says so, then
classify by `os.path.exists(replica_path)` — evaluated, as in the script,
after `shutil.copy2` has run.  Directory branch: ensure the replica
subdirectory and recurse.  Any other kind of entry matches neither
`os.path.isfile` nor `os.path.isdir` and is skipped. -/
def sync_item (F : Faults) (hash : List Nat → Nat) (sp rp : Path)
    (name : String) (snode : Node) (res : List (String × Node)) :
    List (String × Node) × SyncStats :=
  match snode with
  | Node.file c m =>
      if F.itemFails (sp ++ [name]) then (res, ⟨0, 0, 0, 1⟩)
      else
        match needs_copy hash (Node.file c m) (lookupEntry res name) with
        | none => (res, ⟨0, 0, 0, 1⟩)
        | some false => (res, ⟨0, 0, 0, 0⟩)
        | some true =>
            let res1 := setEntry res name (Node.file c m)
            match lookupEntry res1 name with
            | some _ => (res1, ⟨0, 1, 0, 0⟩)
            | none => (res1, ⟨1, 0, 0, 0⟩)
  | Node.dir ses1 =>
      let sub := sync_level F hash (sp ++ [name]) (rp ++ [name]) ses1
        (lookupEntry res name)
      (setEntry res name sub.1, sub.2)
  | Node.other => (res, ⟨0, 0, 0, 0⟩)
termination_by (sizeOf snode, 0)
decreasing_by
  simp_wf
  apply Prod.Lex.left
  omega

end

/-- Top-level `sync_folders(source, replica)`: create a missing source root
(line 162), create a missing replica root, then run the level logic; if the
source is not a directory its listing raises, costing the single `errors`
of the combined `try`.  Returns the source tree after the pass, the replica
tree after the pass, and the stats. -/
def sync_folders (F : Faults) (hash : List Nat → Nat) (sp rp : Path)
    (src rep : Option Node) : Option Node × Node × SyncStats :=
  let s := create_directory_if_missing src
  match s with
  | Node.dir ses =>
      let out := sync_level F hash sp rp ses rep
      (some (Node.dir ses), out.1, out.2)
  | Node.file c m =>
      (some (Node.file c m), create_directory_if_missing rep, ⟨0, 0, 0, 1⟩)
  | Node.other =>
      (some Node.other, create_directory_if_missing rep, ⟨0, 0, 0, 1⟩)

/-! ## Well-formedness and specification predicates -/

/-- Unique entry names at one directory level — what a real directory
listing guarantees. -/
def nodupNames : List (String × Node) → Bool
  | [] => true
  | (n, _) :: rest => !(memName (rest.map Prod.fst) n) && nodupNames rest

mutual

/-- A tree is well formed when every directory level has unique names. -/
def wfB : Node → Bool
  | Node.file _ _ => true
  | Node.other => true
  | Node.dir es => nodupNames es && wfEntriesB es

/-- All nodes of a listing are well formed. -/
def wfEntriesB : List (String × Node) → Bool
  | [] => true
  | (_, v) :: rest => wfB v && wfEntriesB rest

end

mutual

/-- A tree is clean when every node is a regular file or a directory —
no sockets, dangling symlinks or other special entries. -/
def cleanB : Node → Bool
  | Node.file _ _ => true
  | Node.other => false
  | Node.dir es => cleanEntriesB es

/-- All nodes of a listing are clean. -/
def cleanEntriesB : List (String × Node) → Bool
  | [] => true
  | (_, v) :: rest => cleanB v && cleanEntriesB rest

end

mutual

/-- A tree made of directories only — no files, no special entries. -/
def dirOnlyB : Node → Bool
  | Node.file _ _ => false
  | Node.other => false
  | Node.dir es => dirOnlyEntriesB es

/-- All nodes of a listing are directories only. -/
def dirOnlyEntriesB : List (String × Node) → Bool
  | [] => true
  | (_, v) :: rest => dirOnlyB v && dirOnlyEntriesB rest

end

/-- Well-formedness of an optional root. -/
def wfOptB : Option Node → Bool
  | none => true
  | some n => wfB n

/-- Cleanliness of an optional root. -/
def cleanOptB : Option Node → Bool
  | none => true
  | some n => cleanB n

/-- Every replica entry name occurs among the source entry names. -/
def replicaNamesOk (ses res : List (String × Node)) : Bool :=
  res.all fun e => memName (ses.map Prod.fst) e.1

mutual

/-- The mirror relation of the spec: a replica node mirrors a source node
when both are files with equal content hash, or both are directories such
that every source entry has a mirroring replica entry of the same name and
every replica entry name comes from the source listing. -/
def mirrorsB (hash : List Nat → Nat) : Node → Node → Bool
  | Node.file c _, Node.file c1 _ => hash c == hash c1
  | Node.dir ses, Node.dir res =>
      sourceCovered hash ses res && replicaNamesOk ses res
  | _, _ => false

/-- Every source entry has a mirroring replica entry under its name. -/
def sourceCovered (hash : List Nat → Nat) :
    List (String × Node) → List (String × Node) → Bool
  | [], _ => true
  | (n, sn) :: rest, res =>
      (match lookupEntry res n with
       | some rn => mirrorsB hash sn rn
       | none => false) && sourceCovered hash rest res

end

/-- A node that `os.path.isfile` or `os.path.isdir` recognises — the kinds
`remove_outdated_items` actually attempts to remove. -/
def isFileOrDir : Node → Bool
  | Node.file _ _ => true
  | Node.dir _ => true
  | Node.other => false

/-- A concrete content hash used to evaluate the model on closed inputs. -/
def sumHash : List Nat → Nat := List.sum

/-- The byte content of the string `hello`. -/
def helloBytes : List Nat := [104, 101, 108, 108, 111]

/-- An environment where hashing or copying the single source file at
`s/a` raises `OSError` and everything else succeeds. -/
def oneItemFault : Faults :=
  ⟨fun _ => false, fun _ => false, fun p => p == ["s", "a"]⟩

/-- An environment where removing the replica entry at `r/bad` raises
`OSError` and everything else succeeds. -/
def oneRemoveFault : Faults :=
  ⟨fun _ => false, fun p => p == ["r", "bad"], fun _ => false⟩

/-- An environment where listing the directory at `s/bad` raises `OSError`
and everything else succeeds. -/
def oneListFault : Faults :=
  ⟨fun p => p == ["s", "bad"], fun _ => false, fun _ => false⟩

/-- The listing of a directory node (empty for non-directories). -/
def entriesOf : Node → List (String × Node)
  | Node.dir es => es
  | _ => []

/-- What a zero-error pass guarantees about the replica listing `R` at one
source entry, phrased so that a second pass over the entry is the identity:
a file entry has a hash-equal replica file and a clear per-entry fault; a
directory entry has a replica subtree on which the recursive pass is the
identity with zero stats; entries of other kinds need nothing. -/
def secondPassFact (F : Faults) (hash : List Nat → Nat) (sp rp : Path)
    (k : String) (sn : Node) (R : List (String × Node)) : Prop :=
  match sn with
  | Node.file c _ =>
      F.itemFails (sp ++ [k]) = false ∧
      ∃ c1 m1, lookupEntry R k = some (Node.file c1 m1) ∧ hash c1 = hash c
  | Node.dir ses1 =>
      ∃ rsub, lookupEntry R k = some rsub ∧
        sync_level F hash (sp ++ [k]) (rp ++ [k]) ses1 (some rsub) =
          (rsub, SyncStats.zero)
  | Node.other => True

/-! ## Basic lemmas about listings -/

@[simp] theorem lookupEntry_nil (n : String) : lookupEntry [] n = none := rfl

@[simp] theorem lookupEntry_cons (m : String) (v : Node)
    (rest : List (String × Node)) (n : String) :
    lookupEntry ((m, v) :: rest) n =
      if m = n then some v else lookupEntry rest n := rfl

@[simp] theorem setEntry_nil (n : String) (v : Node) :
    setEntry [] n v = [(n, v)] := rfl

@[simp] theorem setEntry_cons (m : String) (w : Node)
    (rest : List (String × Node)) (n : String) (v : Node) :
    setEntry ((m, w) :: rest) n v =
      if m = n then (n, v) :: rest else (m, w) :: setEntry rest n v := rfl

@[simp] theorem memName_nil (n : String) : memName [] n = false := rfl

@[simp] theorem memName_cons (m : String) (rest : List String) (n : String) :
    memName (m :: rest) n = ((m = n) || memName rest n) := rfl

theorem memName_eq_true_iff (l : List String) (n : String) :
    memName l n = true ↔ n ∈ l := by
  induction l with
  | nil => simp
  | cons m rest ih =>
      simp only [memName_cons, Bool.or_eq_true, decide_eq_true_eq, ih,
        List.mem_cons]
      constructor
      · rintro (h | h)
        · exact Or.inl h.symm
        · exact Or.inr h
      · rintro (h | h)
        · exact Or.inl h.symm
        · exact Or.inr h

theorem lookupEntry_setEntry_self (l : List (String × Node)) (n : String)
    (v : Node) : lookupEntry (setEntry l n v) n = some v := by
  induction l with
  | nil => simp
  | cons e rest ih =>
      obtain ⟨m, w⟩ := e
      by_cases h : m = n <;> simp [h, ih]

theorem lookupEntry_setEntry_ne (l : List (String × Node)) (n m : String)
    (v : Node) (h : n ≠ m) :
    lookupEntry (setEntry l n v) m = lookupEntry l m := by
  induction l with
  | nil => simp [h]
  | cons e rest ih =>
      obtain ⟨k, w⟩ := e
      by_cases hk : k = n
      · subst hk
        simp [h]
      · simp only [setEntry_cons, if_neg hk, lookupEntry_cons]
        by_cases hm : k = m <;> simp [hm, ih]

theorem mem_setEntry (l : List (String × Node)) (n : String) (v : Node)
    (e : String × Node) (he : e ∈ setEntry l n v) :
    e ∈ l ∨ e = (n, v) := by
  induction l with
  | nil =>
      simp only [setEntry_nil, List.mem_singleton] at he
      exact Or.inr he
  | cons f rest ih =>
      obtain ⟨k, w⟩ := f
      by_cases hk : k = n
      · simp only [setEntry_cons, if_pos hk, List.mem_cons] at he
        rcases he with h | h
        · exact Or.inr h
        · exact Or.inl (List.mem_cons_of_mem _ h)
      · simp only [setEntry_cons, if_neg hk, List.mem_cons] at he
        rcases he with h | h
        · exact Or.inl (by simp [h])
        · rcases ih h with h1 | h1
          · exact Or.inl (List.mem_cons_of_mem _ h1)
          · exact Or.inr h1

theorem names_setEntry (l : List (String × Node)) (n : String) (v : Node) :
    (setEntry l n v).map Prod.fst = l.map Prod.fst ∨
      (setEntry l n v).map Prod.fst = l.map Prod.fst ++ [n] := by
  induction l with
  | nil => simp
  | cons e rest ih =>
      obtain ⟨k, w⟩ := e
      by_cases hk : k = n
      · subst hk
        simp
      · simp only [setEntry_cons, if_neg hk, List.map_cons]
        rcases ih with h | h
        · exact Or.inl (by simp [h])
        · exact Or.inr (by simp [h])

/-! ## Claim C8 — stats merge is a commutative monoid -/

/-- C8: merging two `SyncStats` values is field-wise addition of the four
counters; the merge is associative and commutative, and the all-zero stats
value is its identity element. -/
theorem stats_merge_monoid :
    (∀ a b : SyncStats, (a + b).copied = a.copied + b.copied ∧
      (a + b).updated = a.updated + b.updated ∧
      (a + b).deleted = a.deleted + b.deleted ∧
      (a + b).errors = a.errors + b.errors) ∧
    (∀ a b c : SyncStats, a + b + c = a + (b + c)) ∧
    (∀ a b : SyncStats, a + b = b + a) ∧
    (∀ a : SyncStats, a + SyncStats.zero = a ∧ SyncStats.zero + a = a) := by
  refine ⟨fun a b => ⟨rfl, rfl, rfl, rfl⟩, fun a b c => ?_, fun a b => ?_,
    fun a => ⟨?_, ?_⟩⟩ <;> simp [SyncStats.zero] <;> omega

/-! ## Claim C3 — the copy decision is content-hash only -/

/-- C3: the per-file copy decision is true exactly when the replica
counterpart does not exist or the content hashes differ; it is a function
of replica existence and the two content hashes alone — source and replica
pairs with equal hashes yield the same decision whatever their sizes and
mtimes, and the mtime visible to `get_file_info` never enters the
decision. -/
theorem needs_copy_content_only :
    (∀ (hash : List Nat → Nat) (c : List Nat) (m : Nat),
        needs_copy hash (Node.file c m) none = some true) ∧
    (∀ (hash : List Nat → Nat) (c : List Nat) (m : Nat) (c1 : List Nat)
        (m1 : Nat),
        needs_copy hash (Node.file c m) (some (Node.file c1 m1)) =
          some (hash c != hash c1)) ∧
    (∀ (hash : List Nat → Nat) (c : List Nat) (m : Nat) (c1 : List Nat)
        (m1 : Nat) (d : List Nat) (k : Nat) (d1 : List Nat) (k1 : Nat),
        hash c = hash d → hash c1 = hash d1 →
        needs_copy hash (Node.file c m) (some (Node.file c1 m1)) =
          needs_copy hash (Node.file d k) (some (Node.file d1 k1))) ∧
    (∀ (hash : List Nat → Nat) (c : List Nat) (m m1 : Nat) (r : Option Node),
        needs_copy hash (Node.file c m) r = needs_copy hash (Node.file c m1) r ∧
        (m ≠ m1 → get_file_info c m ≠ get_file_info c m1)) := by
  refine ⟨fun hash c m => rfl, fun hash c m c1 m1 => rfl,
    fun hash c m c1 m1 d k d1 k1 h1 h2 => ?_, fun hash c m m1 r => ⟨?_, ?_⟩⟩
  · simp [needs_copy, calculate_md5, h1, h2]
  · cases r with
    | none => rfl
    | some rn => cases rn <;> rfl
  · intro hm hinfo
    exact hm (congrArg FileInfo.mtime hinfo)

/-- Closed instance of `needs_copy_content_only`: two source/replica pairs
with different sizes and mtimes but equal hashes get the same decision, and
differing mtimes are visible to `get_file_info`. -/
theorem needs_copy_content_only_witness :
    needs_copy (fun _ => 0) (Node.file [1] 0) (some (Node.file [2, 3] 5)) =
      needs_copy (fun _ => 0) (Node.file [4, 4, 4] 9) (some (Node.file [] 7)) ∧
    get_file_info [1] 0 ≠ get_file_info [1] 3 := by
  constructor
  · exact needs_copy_content_only.2.2.1 (fun _ => 0) [1] 0 [2, 3] 5 [4, 4, 4] 9
      [] 7 rfl rfl
  · exact (needs_copy_content_only.2.2.2 (fun _ => 0) [1] 0 3 none).2
      (by decide)

/-! ## Claim C2 — `copied` versus `updated` classification -/

/-- C2: syncing a single new source file `a.txt` (content `hello`) into an
empty replica.  The script checks `os.path.exists(replica_path)` only after
`shutil.copy2` has already created the file, so the successful copy of a
brand-new file is counted as `updated`: the pass returns stats
{copied 0, updated 1, deleted 0, errors 0}, not the {1, 0, 0, 0} the spec
requires, and the `copied` branch is unreachable on any successful copy. -/
theorem copied_counter_dead_code :
    sync_folders noFaults sumHash ["source"] ["replica"]
      (some (Node.dir [("a.txt", Node.file helloBytes 0)]))
      (some (Node.dir [])) =
    (some (Node.dir [("a.txt", Node.file helloBytes 0)]),
     Node.dir [("a.txt", Node.file helloBytes 0)],
     ⟨0, 1, 0, 0⟩) := by
  simp [sync_folders, sync_level, sync_items, sync_item, remove_outdated_items,
    needs_copy, calculate_md5, noFaults, create_directory_if_missing,
    SyncStats.zero]

/-! ## Claim C7 — side effects and the source tree -/

/-- C7 counterexample: with the source root absent and the replica an empty
directory, the pass completes with no faults injected, yet the source root
is no longer absent afterwards — `sync_folders` created it (line 162 of the
script), so the pass does mutate a path at the source root. -/
theorem replica_only_effects_cex :
    (sync_folders noFaults sumHash ["source"] ["replica"] none
      (some (Node.dir []))).1 ≠ none := by
  simp [sync_folders, sync_level, sync_items, remove_outdated_items,
    noFaults, create_directory_if_missing, SyncStats.zero]

/-- C7 amended: the source tree a pass leaves behind is exactly the input
source tree when one exists, and a freshly created empty source root
directory when the input source root is missing; apart from this root
creation every filesystem mutation of the pass is confined to the replica
tree, which the model returns separately. -/
theorem source_root_create_only (F : Faults) (hash : List Nat → Nat)
    (sp rp : Path) (src rep : Option Node) :
    (sync_folders F hash sp rp src rep).1 =
      some (create_directory_if_missing src) := by
  cases src with
  | none => simp [sync_folders, create_directory_if_missing]
  | some n => cases n <;> simp [sync_folders, create_directory_if_missing]

/-! ## Claim C5 — per-entry failures are isolated -/

/-- C5: orphan removal walks every orphan — each successful removal of a
file or directory orphan adds exactly one `deleted`, each failing removal
adds exactly one `errors`, with the counts ranging over the whole listing
(no early abort) and nothing else counted; and in the source-driven loop a
per-entry I/O failure adds exactly one `errors`, leaves the replica listing
untouched, and the remaining entries of the level are processed exactly as
they otherwise would be. -/
theorem per_entry_failure_isolated :
    (∀ (F : Faults) (rp : Path) (snames : List String)
        (res : List (String × Node)),
        (remove_outdated_items F rp snames res).2.copied = 0 ∧
        (remove_outdated_items F rp snames res).2.updated = 0 ∧
        (remove_outdated_items F rp snames res).2.deleted =
          res.countP (fun e => !memName snames e.1 && isFileOrDir e.2 &&
            !F.removeFails (rp ++ [e.1])) ∧
        (remove_outdated_items F rp snames res).2.errors =
          res.countP (fun e => !memName snames e.1 && isFileOrDir e.2 &&
            F.removeFails (rp ++ [e.1]))) ∧
    (∀ (F : Faults) (hash : List Nat → Nat) (sp rp : Path) (name : String)
        (c : List Nat) (m : Nat) (rest res : List (String × Node)),
        F.itemFails (sp ++ [name]) = true →
        sync_items F hash sp rp ((name, Node.file c m) :: rest) res =
          ((sync_items F hash sp rp rest res).1,
           ⟨0, 0, 0, 1⟩ + (sync_items F hash sp rp rest res).2)) := by
  constructor
  · intro F rp snames res
    induction res with
    | nil => simp [remove_outdated_items, SyncStats.zero]
    | cons e rest ih =>
        obtain ⟨name, node⟩ := e
        obtain ⟨ihc, ihu, ihd, ihe⟩ := ih
        by_cases hmem : memName snames name
        · simp [remove_outdated_items, hmem, List.countP_cons, ihc, ihu,
            ihd, ihe]
        · cases node with
          | file c m =>
              by_cases hrf : F.removeFails (rp ++ [name]) <;>
                simp [remove_outdated_items, hmem, hrf, List.countP_cons,
                  isFileOrDir, ihc, ihu, ihd, ihe]
          | dir es =>
              by_cases hrf : F.removeFails (rp ++ [name]) <;>
                simp [remove_outdated_items, hmem, hrf, List.countP_cons,
                  isFileOrDir, ihc, ihu, ihd, ihe]
          | other =>
              simp [remove_outdated_items, hmem, List.countP_cons,
                isFileOrDir, ihc, ihu, ihd, ihe]
  · intro F hash sp rp name c m rest res h
    simp [sync_items, sync_item, h]

/-- Closed instance of `per_entry_failure_isolated`: a failing file removal
among succeeding ones yields one error and one deletion, and a failing copy
of `s/a` still lets the sibling `b` be copied. -/
theorem per_entry_failure_isolated_witness :
    (remove_outdated_items oneRemoveFault ["r"] ["keep"]
      [("keep", Node.file [1] 0), ("bad", Node.file [2] 0),
       ("gone", Node.dir []), ("odd", Node.other)]).2.errors = 1 ∧
    (remove_outdated_items oneRemoveFault ["r"] ["keep"]
      [("keep", Node.file [1] 0), ("bad", Node.file [2] 0),
       ("gone", Node.dir []), ("odd", Node.other)]).2.deleted = 1 ∧
    sync_items oneItemFault sumHash ["s"] ["r"]
      [("a", Node.file [1] 0), ("b", Node.file [2] 0)] [] =
      ([("b", Node.file [2] 0)], ⟨0, 1, 0, 1⟩) := by
  refine ⟨?_, ?_, ?_⟩
  · rw [(per_entry_failure_isolated.1 oneRemoveFault ["r"] ["keep"]
      [("keep", Node.file [1] 0), ("bad", Node.file [2] 0),
       ("gone", Node.dir []), ("odd", Node.other)]).2.2.2]
    decide
  · rw [(per_entry_failure_isolated.1 oneRemoveFault ["r"] ["keep"]
      [("keep", Node.file [1] 0), ("bad", Node.file [2] 0),
       ("gone", Node.dir []), ("odd", Node.other)]).2.2.1]
    decide
  · rw [per_entry_failure_isolated.2 oneItemFault sumHash ["s"] ["r"]
      "a" [1] 0 [("b", Node.file [2] 0)] [] (by decide)]
    simp [sync_items, sync_item, oneItemFault, needs_copy, calculate_md5,
      SyncStats.zero]

/-! ## Claim C6 — listing failures stop one level only -/

/-- Helper: when listing either side of a level fails (or the replica node
is not a directory at all, so `os.listdir` raises on it), the level returns
the replica as created and the single-error stats. -/
theorem sync_level_listing_error (F : Faults) (hash : List Nat → Nat)
    (sp rp : Path) (ses : List (String × Node)) (rep : Option Node)
    (h : (F.listFails sp || F.listFails rp) = true) :
    sync_level F hash sp rp ses rep =
      (create_directory_if_missing rep, ⟨0, 0, 0, 1⟩) := by
  rcases Bool.or_eq_true_iff.mp h with hsp | hrp
  · simp [sync_level, hsp]
  · cases hsp : F.listFails sp
    · cases hc : create_directory_if_missing rep <;>
        simp [sync_level, hsp, hrp, hc]
    · simp [sync_level, hsp]

/-- C5 companion forms of C6: a listing failure at a level yields exactly
one error, no deletion and no copy, and returns the replica unchanged apart
from its creation; a listing failure inside one subdirectory charges that
entry exactly one error while the sibling entries of the parent level are
processed exactly as they otherwise would be. -/
theorem listing_failure_level :
    (∀ (F : Faults) (hash : List Nat → Nat) (sp rp : Path)
        (ses : List (String × Node)) (rep : Option Node),
        (F.listFails sp || F.listFails rp) = true →
        sync_level F hash sp rp ses rep =
          (create_directory_if_missing rep, ⟨0, 0, 0, 1⟩)) ∧
    (∀ (F : Faults) (hash : List Nat → Nat) (sp rp : Path) (name : String)
        (ses1 : List (String × Node)) (rest res : List (String × Node)),
        F.listFails (sp ++ [name]) = true →
        sync_items F hash sp rp ((name, Node.dir ses1) :: rest) res =
          ((sync_items F hash sp rp rest
              (setEntry res name
                (create_directory_if_missing (lookupEntry res name)))).1,
           ⟨0, 0, 0, 1⟩ +
           (sync_items F hash sp rp rest
              (setEntry res name
                (create_directory_if_missing (lookupEntry res name)))).2)) := by
  refine ⟨fun F hash sp rp ses rep h => sync_level_listing_error F hash
    sp rp ses rep h, ?_⟩
  intro F hash sp rp name ses1 rest res h
  have hsub := sync_level_listing_error F hash (sp ++ [name]) (rp ++ [name])
    ses1 (lookupEntry res name) (by simp [h])
  simp [sync_items, sync_item, hsub]

/-- Closed instance of `listing_failure_level`: the unlistable subdirectory
`s/bad` costs one error while its sibling file `b` is still copied. -/
theorem listing_failure_level_witness :
    sync_level oneListFault sumHash ["s", "bad"] ["r", "bad"] []
      (some (Node.dir [("x", Node.file [9] 0)])) =
      (Node.dir [("x", Node.file [9] 0)], ⟨0, 0, 0, 1⟩) ∧
    sync_items oneListFault sumHash ["s"] ["r"]
      [("bad", Node.dir []), ("b", Node.file [2] 0)] [] =
      ([("bad", Node.dir []), ("b", Node.file [2] 0)], ⟨0, 1, 0, 1⟩) := by
  constructor
  · exact listing_failure_level.1 oneListFault sumHash ["s", "bad"]
      ["r", "bad"] [] (some (Node.dir [("x", Node.file [9] 0)])) (by decide)
  · rw [listing_failure_level.2 oneListFault sumHash ["s"] ["r"] "bad" []
      [("b", Node.file [2] 0)] [] (by decide)]
    simp [sync_items, sync_item, oneListFault, needs_copy, calculate_md5,
      create_directory_if_missing, SyncStats.zero]

/-! ## Claim C9 — entries of other kinds are inert -/

theorem mem_setEntry_ne (l : List (String × Node)) (n m : String) (v w : Node)
    (hne : n ≠ m) (hm : (m, w) ∈ l) : (m, w) ∈ setEntry l n v := by
  induction l with
  | nil => simp at hm
  | cons e rest ih =>
      obtain ⟨k, u⟩ := e
      by_cases hk : k = n
      · subst hk
        simp only [setEntry_cons, if_pos rfl]
        rcases List.mem_cons.mp hm with h | h
        · exfalso
          apply hne
          have := congrArg Prod.fst h
          simp at this
          exact this.symm
        · exact List.mem_cons_of_mem _ h
      · simp only [setEntry_cons, if_neg hk]
        rcases List.mem_cons.mp hm with h | h
        · exact List.mem_cons.mpr (Or.inl h)
        · exact List.mem_cons.mpr (Or.inr (ih h))

theorem mem_remove_other (F : Faults) (rp : Path) (snames : List String)
    (res : List (String × Node)) (name : String)
    (hm : (name, Node.other) ∈ res) :
    (name, Node.other) ∈ (remove_outdated_items F rp snames res).1 := by
  induction res with
  | nil => simp at hm
  | cons e rest ih =>
      obtain ⟨k, u⟩ := e
      rcases List.mem_cons.mp hm with h | h
      · have hk : name = k := by
          have := congrArg Prod.fst h
          simpa using this
        have hu : u = Node.other := by
          have := congrArg Prod.snd h
          simpa using this.symm
        subst hk
        subst hu
        by_cases hmem : memName snames name <;>
          simp [remove_outdated_items, hmem]
      · have hin := ih h
        by_cases hmem : memName snames k
        · simp [remove_outdated_items, hmem, hin]
        · cases u with
          | file c m =>
              by_cases hrf : F.removeFails (rp ++ [k]) <;>
                simp [remove_outdated_items, hmem, hrf, hin]
          | dir es =>
              by_cases hrf : F.removeFails (rp ++ [k]) <;>
                simp [remove_outdated_items, hmem, hrf, hin]
          | other => simp [remove_outdated_items, hmem, hin]

theorem mem_sync_items_not_source (F : Faults) (hash : List Nat → Nat)
    (sp rp : Path) (l : List (String × Node)) (res : List (String × Node))
    (name : String) (v : Node)
    (hns : memName (l.map Prod.fst) name = false) (hm : (name, v) ∈ res) :
    (name, v) ∈ (sync_items F hash sp rp l res).1 := by
  induction l generalizing res with
  | nil => simpa [sync_items] using hm
  | cons e rest ih =>
      obtain ⟨k, sn⟩ := e
      simp only [List.map_cons, memName_cons] at hns
      have hk : k ≠ name := by
        intro hcontra
        subst hcontra
        simp at hns
      have hrest : memName (rest.map Prod.fst) name = false := by
        cases hb : memName (rest.map Prod.fst) name
        · rfl
        · rw [hb, Bool.or_true] at hns
          exact Bool.noConfusion hns
      have h1 : (name, v) ∈ (sync_item F hash sp rp k sn res).1 := by
        cases sn with
        | file c m =>
            by_cases hf : F.itemFails (sp ++ [k])
            · simpa [sync_item, hf] using hm
            · rcases hnc : needs_copy hash (Node.file c m) (lookupEntry res k)
                with _ | b
              · simpa [sync_item, hf, hnc] using hm
              · cases b
                · simpa [sync_item, hf, hnc] using hm
                · simp only [sync_item, if_neg hf, hnc,
                    lookupEntry_setEntry_self]
                  exact mem_setEntry_ne res k name (Node.file c m) v hk hm
        | dir ses1 =>
            simp only [sync_item]
            exact mem_setEntry_ne res k name _ v hk hm
        | other => simpa [sync_item] using hm
      have := ih _ hrest h1
      simpa [sync_items] using this

/-- C9: an entry that is neither a regular file nor a directory is inert.
A replica-only orphan of such a kind is neither removed nor counted by
orphan removal; a source entry of such a kind causes no replica mutation
and no counter change in the source-driven loop; and consequently a
replica-only orphan of such a kind is still present after a level whose
pass reports zero errors. -/
theorem special_kind_inert :
    (∀ (F : Faults) (rp : Path) (snames : List String) (name : String)
        (rest : List (String × Node)), memName snames name = false →
        remove_outdated_items F rp snames ((name, Node.other) :: rest) =
          ((name, Node.other) :: (remove_outdated_items F rp snames rest).1,
           (remove_outdated_items F rp snames rest).2)) ∧
    (∀ (F : Faults) (hash : List Nat → Nat) (sp rp : Path) (name : String)
        (rest res : List (String × Node)),
        sync_items F hash sp rp ((name, Node.other) :: rest) res =
          sync_items F hash sp rp rest res) ∧
    (∀ (F : Faults) (hash : List Nat → Nat) (sp rp : Path)
        (ses res : List (String × Node)) (name : String),
        memName (ses.map Prod.fst) name = false →
        (name, Node.other) ∈ res →
        (sync_level F hash sp rp ses (some (Node.dir res))).2.errors = 0 →
        ∃ res2, (sync_level F hash sp rp ses (some (Node.dir res))).1 =
          Node.dir res2 ∧ (name, Node.other) ∈ res2) := by
  refine ⟨?_, ?_, ?_⟩
  · intro F rp snames name rest h
    simp [remove_outdated_items, h]
  · intro F hash sp rp name rest res
    simp [sync_items, sync_item]
  · intro F hash sp rp ses res name hns hm _
    cases hsp : F.listFails sp
    · cases hrp : F.listFails rp
      · refine ⟨(sync_items F hash sp rp ses
          (remove_outdated_items F rp (ses.map Prod.fst) res).1).1,
          by simp [sync_level, hsp, hrp, create_directory_if_missing], ?_⟩
        exact mem_sync_items_not_source F hash sp rp ses _ name Node.other
          hns (mem_remove_other F rp (ses.map Prod.fst) res name hm)
      · exact ⟨res, by simp [sync_level, hsp, hrp,
          create_directory_if_missing], hm⟩
    · exact ⟨res, by simp [sync_level, hsp, create_directory_if_missing], hm⟩

/-- Closed instance of `special_kind_inert`: a dangling-symlink-like orphan
`ghost` survives a fault-free pass that copies `a` and reports zero
errors. -/
theorem special_kind_inert_witness :
    ("ghost", Node.other) ∈ entriesOf
      (sync_level noFaults sumHash ["s"] ["r"] [("a", Node.file [1] 0)]
        (some (Node.dir [("ghost", Node.other)]))).1 := by
  obtain ⟨res2, h1, h2⟩ := special_kind_inert.2.2 noFaults sumHash ["s"]
    ["r"] [("a", Node.file [1] 0)] [("ghost", Node.other)] "ghost"
    (by decide) (by simp)
    (by simp [sync_level, sync_items, sync_item, remove_outdated_items,
      needs_copy, calculate_md5, noFaults, create_directory_if_missing,
      SyncStats.zero])
  rw [h1]
  simpa [entriesOf] using h2

/-! ## Claim C10 — directory creation is never counted -/

theorem setEntry_of_lookup_none (l : List (String × Node)) (n : String)
    (v : Node) (h : lookupEntry l n = none) : setEntry l n v = l ++ [(n, v)] := by
  induction l with
  | nil => simp
  | cons e rest ih =>
      obtain ⟨k, w⟩ := e
      by_cases hk : k = n
      · simp [hk] at h
      · simp only [lookupEntry_cons, if_neg hk] at h
        simp [hk, ih h]

theorem lookupEntry_append_of_none (A B : List (String × Node)) (m : String)
    (h : lookupEntry A m = none) :
    lookupEntry (A ++ B) m = lookupEntry B m := by
  induction A with
  | nil => simp
  | cons e rest ih =>
      obtain ⟨k, w⟩ := e
      by_cases hk : k = m
      · simp [hk] at h
      · simp only [lookupEntry_cons, if_neg hk] at h
        simp [hk, ih h]

theorem not_memName_ne (l : List (String × Node)) (n : String)
    (h : memName (l.map Prod.fst) n = false) (e : String × Node)
    (he : e ∈ l) : e.1 ≠ n := by
  intro hcontra
  have : n ∈ l.map Prod.fst := by
    exact List.mem_map.mpr ⟨e, he, hcontra⟩
  rw [← memName_eq_true_iff] at this
  rw [this] at h
  exact Bool.noConfusion h

theorem sizeOf_snd_lt_of_mem (l : List (String × Node)) (e : String × Node)
    (he : e ∈ l) : sizeOf e.2 < sizeOf l := by
  have h1 : sizeOf e < sizeOf l := List.sizeOf_lt_of_mem he
  obtain ⟨n, v⟩ := e
  simp at h1 ⊢
  omega

/-- Helper for C10: the source-driven loop over directory-only source
entries whose names are all fresh in the replica appends the corresponding
directories one by one, with zero stats.  `IH` is the outer strong-induction
hypothesis for the recursive per-subdirectory passes. -/
theorem dirOnly_sync_items (hash : List Nat → Nat) (B : Nat)
    (IH : ∀ (sp rp : Path) (ses : List (String × Node)) (rep : Option Node),
      sizeOf ses < B → nodupNames ses = true → wfEntriesB ses = true →
      dirOnlyEntriesB ses = true → rep = none →
      sync_level noFaults hash sp rp ses rep = (Node.dir ses, SyncStats.zero)) :
    ∀ (sp rp : Path) (l res : List (String × Node)),
      (∀ e ∈ l, sizeOf e.2 < B) →
      nodupNames l = true → wfEntriesB l = true → dirOnlyEntriesB l = true →
      (∀ e ∈ l, lookupEntry res e.1 = none) →
      sync_items noFaults hash sp rp l res = (res ++ l, SyncStats.zero) := by
  intro sp rp l
  induction l with
  | nil => intro res _ _ _ _ _; simp [sync_items]
  | cons e rest ih =>
      obtain ⟨n, sn⟩ := e
      intro res hsz hnd hwf hdo hfresh
      simp only [nodupNames] at hnd
      simp only [wfEntriesB] at hwf
      simp only [dirOnlyEntriesB] at hdo
      have hnd1 := (Bool.and_eq_true_iff.mp hnd).1
      have hnd2 := (Bool.and_eq_true_iff.mp hnd).2
      have hwf1 := (Bool.and_eq_true_iff.mp hwf).1
      have hwf2 := (Bool.and_eq_true_iff.mp hwf).2
      have hdo1 := (Bool.and_eq_true_iff.mp hdo).1
      have hdo2 := (Bool.and_eq_true_iff.mp hdo).2
      cases sn with
      | file c m => simp [dirOnlyB] at hdo1
      | other => simp [dirOnlyB] at hdo1
      | dir ses1 =>
          have hlook : lookupEntry res n = none :=
            hfresh (n, Node.dir ses1) (List.mem_cons_self _ _)
          have hsub : sync_level noFaults hash (sp ++ [n]) (rp ++ [n]) ses1
              (lookupEntry res n) = (Node.dir ses1, SyncStats.zero) := by
            apply IH
            · have := hsz (n, Node.dir ses1) (List.mem_cons_self _ _)
              simp at this ⊢
              omega
            · simpa [wfB] using (Bool.and_eq_true_iff.mp (by simpa [wfB] using hwf1)).1
            · simpa [wfB] using (Bool.and_eq_true_iff.mp (by simpa [wfB] using hwf1)).2
            · simpa [dirOnlyB] using hdo1
            · exact hlook
          have hset : setEntry res n (Node.dir ses1) = res ++ [(n, Node.dir ses1)] :=
            setEntry_of_lookup_none res n _ hlook
          have hrest : sync_items noFaults hash sp rp rest
              (res ++ [(n, Node.dir ses1)]) =
              (res ++ [(n, Node.dir ses1)] ++ rest, SyncStats.zero) := by
            apply ih
            · intro e he
              exact hsz e (List.mem_cons_of_mem _ he)
            · exact hnd2
            · exact hwf2
            · exact hdo2
            · intro e he
              have hne : ¬ (n = e.1) := by
                intro hcontra
                have h1 : e.1 ∈ rest.map Prod.fst := List.mem_map_of_mem _ he
                have h3 : memName (rest.map Prod.fst) n = true :=
                  (memName_eq_true_iff _ _).mpr (by rw [hcontra]; exact h1)
                have h2 := hnd1
                rw [h3] at h2
                simp at h2
              rw [lookupEntry_append_of_none _ _ _ (hfresh e (List.mem_cons_of_mem _ he))]
              simp only [lookupEntry_cons, lookupEntry_nil]
              rw [if_neg hne]
          calc sync_items noFaults hash sp rp ((n, Node.dir ses1) :: rest) res
              = ((sync_items noFaults hash sp rp rest
                    (setEntry res n (Node.dir ses1))).1,
                 SyncStats.zero +
                 (sync_items noFaults hash sp rp rest
                    (setEntry res n (Node.dir ses1))).2) := by
                simp [sync_items, sync_item, hsub]
            _ = (res ++ (n, Node.dir ses1) :: rest, SyncStats.zero) := by
                rw [hset, hrest]
                simp [SyncStats.zero]

/-- Helper for C10: a pass over a well-formed directory-only source level
into a missing replica recreates exactly the source listing with zero
stats. -/
theorem dirOnly_sync_level (hash : List Nat → Nat) :
    ∀ (B : Nat) (sp rp : Path) (ses : List (String × Node)) (rep : Option Node),
      sizeOf ses < B → nodupNames ses = true → wfEntriesB ses = true →
      dirOnlyEntriesB ses = true → rep = none →
      sync_level noFaults hash sp rp ses rep = (Node.dir ses, SyncStats.zero) := by
  intro B
  induction B with
  | zero => intro sp rp ses rep hsz; omega
  | succ B ihB =>
      intro sp rp ses rep hsz hnd hwf hdo hrep
      subst hrep
      have hitems : sync_items noFaults hash sp rp ses [] =
          ([] ++ ses, SyncStats.zero) := by
        apply dirOnly_sync_items hash B ihB
        · intro e he
          have h1 := sizeOf_snd_lt_of_mem ses e he
          omega
        · exact hnd
        · exact hwf
        · exact hdo
        · intro e _
          simp
      have hl : noFaults.listFails sp = false := rfl
      have hr : noFaults.listFails rp = false := rfl
      simp [sync_level, create_directory_if_missing, remove_outdated_items,
        hl, hr, hitems, SyncStats.zero]

/-- C10: creating directories is never reflected in any counter.  Syncing a
well-formed source tree consisting only of nested directories into a
missing replica creates exactly those directories (the replica becomes an
identical directory tree) and returns stats {0, 0, 0, 0}; creating a
missing source root and a missing replica root likewise leaves all four
counters at zero. -/
theorem dir_creation_uncounted :
    (∀ (hash : List Nat → Nat) (sp rp : Path) (s : Node),
        wfB s = true → dirOnlyB s = true →
        sync_folders noFaults hash sp rp (some s) none =
          (some s, s, SyncStats.zero)) ∧
    (∀ (hash : List Nat → Nat) (sp rp : Path),
        sync_folders noFaults hash sp rp none none =
          (some (Node.dir []), Node.dir [], SyncStats.zero)) := by
  constructor
  · intro hash sp rp s hwf hdo
    cases s with
    | file c m => simp [dirOnlyB] at hdo
    | other => simp [dirOnlyB] at hdo
    | dir ses =>
        have h1 := (Bool.and_eq_true_iff.mp (by simpa [wfB] using hwf)).1
        have h2 := (Bool.and_eq_true_iff.mp (by simpa [wfB] using hwf)).2
        have hlevel := dirOnly_sync_level hash (sizeOf ses + 1) sp rp ses none
          (by omega) h1 h2 (by simpa [dirOnlyB] using hdo) rfl
        simp [sync_folders, create_directory_if_missing, hlevel]
  · intro hash sp rp
    simp [sync_folders, sync_level, sync_items, remove_outdated_items,
      noFaults, create_directory_if_missing, SyncStats.zero]

/-- Closed instance of `dir_creation_uncounted`: a three-directory nested
source tree synced into a missing replica appears in full with all four
counters zero. -/
theorem dir_creation_uncounted_witness :
    sync_folders noFaults sumHash ["s"] ["r"]
      (some (Node.dir [("a", Node.dir [("b", Node.dir [])]), ("c", Node.dir [])]))
      none =
    (some (Node.dir [("a", Node.dir [("b", Node.dir [])]), ("c", Node.dir [])]),
     Node.dir [("a", Node.dir [("b", Node.dir [])]), ("c", Node.dir [])],
     SyncStats.zero) := by
  exact dir_creation_uncounted.1 sumHash ["s"] ["r"]
    (Node.dir [("a", Node.dir [("b", Node.dir [])]), ("c", Node.dir [])])
    (by simp [wfB, wfEntriesB, nodupNames, memName])
    (by simp [dirOnlyB, dirOnlyEntriesB])

/-! ## Shared machinery for the convergence claims (C1, C4) -/

theorem errors_add (a b : SyncStats) : (a + b).errors = a.errors + b.errors := rfl

theorem setEntry_self (l : List (String × Node)) (k : String) (v : Node)
    (h : lookupEntry l k = some v) : setEntry l k v = l := by
  induction l with
  | nil => simp at h
  | cons e rest ih =>
      obtain ⟨m, w⟩ := e
      by_cases hm : m = k
      · subst hm
        rw [lookupEntry_cons, if_pos rfl] at h
        injection h with h
        subst h
        simp
      · simp only [lookupEntry_cons, if_neg hm] at h
        simp [hm, ih h]

theorem lookup_mem (l : List (String × Node)) (k : String) (v : Node)
    (h : lookupEntry l k = some v) : (k, v) ∈ l := by
  induction l with
  | nil => simp at h
  | cons e rest ih =>
      obtain ⟨m, w⟩ := e
      by_cases hm : m = k
      · subst hm
        rw [lookupEntry_cons, if_pos rfl] at h
        injection h with h
        subst h
        simp
      · simp only [lookupEntry_cons, if_neg hm] at h
        exact List.mem_cons_of_mem _ (ih h)

theorem cleanEntriesB_iff (l : List (String × Node)) :
    cleanEntriesB l = true ↔ ∀ e ∈ l, cleanB e.2 = true := by
  induction l with
  | nil => simp [cleanEntriesB]
  | cons e rest ih =>
      obtain ⟨m, w⟩ := e
      simp [cleanEntriesB, ih, Bool.and_eq_true_iff]

theorem wfEntriesB_iff (l : List (String × Node)) :
    wfEntriesB l = true ↔ ∀ e ∈ l, wfB e.2 = true := by
  induction l with
  | nil => simp [wfEntriesB]
  | cons e rest ih =>
      obtain ⟨m, w⟩ := e
      simp [wfEntriesB, ih, Bool.and_eq_true_iff]

theorem sourceCovered_iff (hash : List Nat → Nat)
    (l res : List (String × Node)) :
    sourceCovered hash l res = true ↔
      ∀ e ∈ l, ∃ rn, lookupEntry res e.1 = some rn ∧
        mirrorsB hash e.2 rn = true := by
  induction l with
  | nil => simp [sourceCovered]
  | cons e rest ih =>
      obtain ⟨k, sn⟩ := e
      simp only [sourceCovered, Bool.and_eq_true_iff, ih, List.mem_cons]
      constructor
      · rintro ⟨h1, h2⟩ e he
        rcases he with he | he
        · subst he
          cases hl : lookupEntry res k with
          | none => rw [hl] at h1; simp at h1
          | some rn =>
              rw [hl] at h1
              exact ⟨rn, rfl, h1⟩
        · exact h2 e he
      · intro h
        constructor
        · obtain ⟨rn, h1, h2⟩ := h (k, sn) (Or.inl rfl)
          rw [h1]
          exact h2
        · intro e he
          exact h e (Or.inr he)

theorem replicaNamesOk_iff (ses res : List (String × Node)) :
    replicaNamesOk ses res = true ↔
      ∀ e ∈ res, memName (ses.map Prod.fst) e.1 = true := by
  simp [replicaNamesOk, List.all_eq_true]

/-- The success path of one level: no listing faults and a directory at the
replica path give the remove-then-sync result. -/
theorem sync_level_eq_ok (F : Faults) (hash : List Nat → Nat) (sp rp : Path)
    (ses : List (String × Node)) (rep : Option Node)
    (res : List (String × Node)) (hsp : F.listFails sp = false)
    (hrp : F.listFails rp = false)
    (hcr : create_directory_if_missing rep = Node.dir res) :
    sync_level F hash sp rp ses rep =
      (Node.dir (sync_items F hash sp rp ses
          (remove_outdated_items F rp (ses.map Prod.fst) res).1).1,
       (remove_outdated_items F rp (ses.map Prod.fst) res).2 +
       (sync_items F hash sp rp ses
          (remove_outdated_items F rp (ses.map Prod.fst) res).1).2) := by
  simp [sync_level, hsp, hrp, hcr]

/-- Entries surviving orphan removal come from the original listing. -/
theorem remove_mem_of_mem (F : Faults) (rp : Path) (snames : List String)
    (res : List (String × Node)) (e : String × Node)
    (he : e ∈ (remove_outdated_items F rp snames res).1) : e ∈ res := by
  induction res with
  | nil => simpa [remove_outdated_items] using he
  | cons f rest ih =>
      obtain ⟨k, u⟩ := f
      by_cases hk : memName snames k
      · simp only [remove_outdated_items, if_pos hk, List.mem_cons] at he
        rcases he with h | h
        · simp [h]
        · exact List.mem_cons_of_mem _ (ih h)
      · cases u with
        | file c m =>
            by_cases hrf : F.removeFails (rp ++ [k])
            · simp only [remove_outdated_items, if_neg hk, if_pos hrf,
                List.mem_cons] at he
              rcases he with h | h
              · simp [h]
              · exact List.mem_cons_of_mem _ (ih h)
            · simp only [remove_outdated_items, if_neg hk, if_neg hrf] at he
              exact List.mem_cons_of_mem _ (ih he)
        | dir es =>
            by_cases hrf : F.removeFails (rp ++ [k])
            · simp only [remove_outdated_items, if_neg hk, if_pos hrf,
                List.mem_cons] at he
              rcases he with h | h
              · simp [h]
              · exact List.mem_cons_of_mem _ (ih h)
            · simp only [remove_outdated_items, if_neg hk, if_neg hrf] at he
              exact List.mem_cons_of_mem _ (ih he)
        | other =>
            simp only [remove_outdated_items, if_neg hk, List.mem_cons] at he
            rcases he with h | h
            · simp [h]
            · exact List.mem_cons_of_mem _ (ih h)

/-- After a removal phase that reported no errors, every surviving entry
either carries a source name or is of a kind the script cannot remove. -/
theorem remove_errors_zero_keys (F : Faults) (rp : Path)
    (snames : List String) (res : List (String × Node))
    (herr : (remove_outdated_items F rp snames res).2.errors = 0) :
    ∀ e ∈ (remove_outdated_items F rp snames res).1,
      memName snames e.1 = true ∨ e.2 = Node.other := by
  induction res with
  | nil => simp [remove_outdated_items]
  | cons f rest ih =>
      obtain ⟨k, u⟩ := f
      by_cases hk : memName snames k
      · simp only [remove_outdated_items, if_pos hk] at herr ⊢
        intro e he
        rcases List.mem_cons.mp he with h | h
        · left
          rw [congrArg Prod.fst h]
          exact hk
        · exact ih herr e h
      · cases u with
        | file c m =>
            by_cases hrf : F.removeFails (rp ++ [k])
            · simp only [remove_outdated_items, if_neg hk, if_pos hrf,
                errors_add] at herr
              omega
            · simp only [remove_outdated_items, if_neg hk, if_neg hrf,
                errors_add] at herr ⊢
              intro e he
              exact ih (by omega) e he
        | dir es =>
            by_cases hrf : F.removeFails (rp ++ [k])
            · simp only [remove_outdated_items, if_neg hk, if_pos hrf,
                errors_add] at herr
              omega
            · simp only [remove_outdated_items, if_neg hk, if_neg hrf,
                errors_add] at herr ⊢
              intro e he
              exact ih (by omega) e he
        | other =>
            simp only [remove_outdated_items, if_neg hk] at herr ⊢
            intro e he
            rcases List.mem_cons.mp he with h | h
            · right
              exact congrArg Prod.snd h
            · exact ih herr e h

/-- Orphan removal is the identity with zero stats on a listing whose every
entry is source-named or unremovable. -/
theorem remove_identity (F : Faults) (rp : Path) (snames : List String)
    (res : List (String × Node))
    (h : ∀ e ∈ res, memName snames e.1 = true ∨ e.2 = Node.other) :
    remove_outdated_items F rp snames res = (res, SyncStats.zero) := by
  induction res with
  | nil => simp [remove_outdated_items]
  | cons f rest ih =>
      obtain ⟨k, u⟩ := f
      have hrest := ih fun e he => h e (List.mem_cons_of_mem _ he)
      rcases h (k, u) (List.mem_cons_self _ _) with hk | hu
      · simp [remove_outdated_items, hk, hrest]
      · simp only at hu
        subst hu
        by_cases hk : memName snames k <;>
          simp [remove_outdated_items, hk, hrest]

/-- `sync_item` leaves every replica entry of a different name alone. -/
theorem lookup_sync_item_ne (F : Faults) (hash : List Nat → Nat)
    (sp rp : Path) (k : String) (sn : Node) (R : List (String × Node))
    (n : String) (hne : k ≠ n) :
    lookupEntry (sync_item F hash sp rp k sn R).1 n = lookupEntry R n := by
  cases sn with
  | file c m =>
      by_cases hf : F.itemFails (sp ++ [k])
      · simp [sync_item, hf]
      · rcases hnc : needs_copy hash (Node.file c m) (lookupEntry R k)
          with _ | b
        · simp [sync_item, if_neg hf, hnc]
        · cases b
          · simp [sync_item, if_neg hf, hnc]
          · simp only [sync_item, if_neg hf, hnc, lookupEntry_setEntry_self]
            exact lookupEntry_setEntry_ne R k n _ hne
  | dir ses1 =>
      simp only [sync_item]
      exact lookupEntry_setEntry_ne R k n _ hne
  | other => simp [sync_item]

/-- The source loop leaves every replica entry whose name is not among the
processed source names alone. -/
theorem lookup_sync_items_not_source (F : Faults) (hash : List Nat → Nat)
    (sp rp : Path) :
    ∀ (l R : List (String × Node)) (n : String),
      memName (l.map Prod.fst) n = false →
      lookupEntry (sync_items F hash sp rp l R).1 n = lookupEntry R n := by
  intro l
  induction l with
  | nil => intro R n _; simp [sync_items]
  | cons e rest ih =>
      obtain ⟨k, sn⟩ := e
      intro R n hns
      simp only [List.map_cons, memName_cons] at hns
      have hk : ¬ (k = n) := by
        intro hcontra
        subst hcontra
        simp at hns
      have hrest : memName (rest.map Prod.fst) n = false := by
        cases hb : memName (rest.map Prod.fst) n
        · rfl
        · rw [hb, Bool.or_true] at hns
          exact Bool.noConfusion hns
      have h1 := lookup_sync_item_ne F hash sp rp k sn R n hk
      have h2 := ih (sync_item F hash sp rp k sn R).1 n hrest
      calc lookupEntry (sync_items F hash sp rp ((k, sn) :: rest) R).1 n
          = lookupEntry (sync_items F hash sp rp rest
              (sync_item F hash sp rp k sn R).1).1 n := by
            simp [sync_items]
        _ = lookupEntry R n := by rw [h2, h1]

/-- Every entry of a `sync_item` result is an old entry or carries the
processed name. -/
theorem mem_sync_item (F : Faults) (hash : List Nat → Nat) (sp rp : Path)
    (k : String) (sn : Node) (R : List (String × Node)) (e : String × Node)
    (he : e ∈ (sync_item F hash sp rp k sn R).1) : e ∈ R ∨ e.1 = k := by
  cases sn with
  | file c m =>
      by_cases hf : F.itemFails (sp ++ [k])
      · exact Or.inl (by simpa [sync_item, hf] using he)
      · rcases hnc : needs_copy hash (Node.file c m) (lookupEntry R k)
          with _ | b
        · exact Or.inl (by simpa [sync_item, if_neg hf, hnc] using he)
        · cases b
          · exact Or.inl (by simpa [sync_item, if_neg hf, hnc] using he)
          · simp only [sync_item, if_neg hf, hnc,
              lookupEntry_setEntry_self] at he
            rcases mem_setEntry R k _ e he with h | h
            · exact Or.inl h
            · exact Or.inr (congrArg Prod.fst h)
  | dir ses1 =>
      simp only [sync_item] at he
      rcases mem_setEntry R k _ e he with h | h
      · exact Or.inl h
      · exact Or.inr (congrArg Prod.fst h)
  | other => exact Or.inl (by simpa [sync_item] using he)

/-- Every entry after the source loop is an old entry or carries a source
name. -/
theorem mem_sync_items (F : Faults) (hash : List Nat → Nat) (sp rp : Path) :
    ∀ (l R : List (String × Node)) (e : String × Node),
      e ∈ (sync_items F hash sp rp l R).1 →
      e ∈ R ∨ memName (l.map Prod.fst) e.1 = true := by
  intro l
  induction l with
  | nil => intro R e he; exact Or.inl (by simpa [sync_items] using he)
  | cons f rest ih =>
      obtain ⟨k, sn⟩ := f
      intro R e he
      have he2 : e ∈ (sync_items F hash sp rp rest
          (sync_item F hash sp rp k sn R).1).1 := by
        simpa [sync_items] using he
      rcases ih _ e he2 with h | h
      · rcases mem_sync_item F hash sp rp k sn R e h with h1 | h1
        · exact Or.inl h1
        · right
          simp [h1]
      · right
        simp [h]

/-! ## Claim C4 — idempotence of a clean pass -/

/-- A single source entry satisfying its pass postcondition is processed as
the identity with zero stats. -/
theorem sync_item_identity (F : Faults) (hash : List Nat → Nat)
    (sp rp : Path) (k : String) (sn : Node) (R : List (String × Node))
    (hfact : secondPassFact F hash sp rp k sn R) :
    sync_item F hash sp rp k sn R = (R, SyncStats.zero) := by
  cases sn with
  | file c m =>
      obtain ⟨hf, c1, m1, hl, hh⟩ := hfact
      have hnc : needs_copy hash (Node.file c m) (lookupEntry R k) =
          some false := by
        rw [hl]
        simp [needs_copy, calculate_md5, hh]
      simp [sync_item, hf, hnc, SyncStats.zero]
  | dir ses1 =>
      obtain ⟨rsub, hl, hid⟩ := hfact
      simp only [sync_item, hl, hid]
      rw [setEntry_self R k rsub hl]
  | other => simp [sync_item, SyncStats.zero]

/-- A source loop whose every entry satisfies its pass postcondition is the
identity with zero stats. -/
theorem sync_items_identity (F : Faults) (hash : List Nat → Nat)
    (sp rp : Path) :
    ∀ (l R : List (String × Node)),
      (∀ k sn, (k, sn) ∈ l → secondPassFact F hash sp rp k sn R) →
      sync_items F hash sp rp l R = (R, SyncStats.zero) := by
  intro l
  induction l with
  | nil => intro R _; simp [sync_items]
  | cons e rest ih =>
      obtain ⟨k, sn⟩ := e
      intro R hfacts
      have h1 := sync_item_identity F hash sp rp k sn R
        (hfacts k sn (List.mem_cons_self _ _))
      have h2 := ih R fun k0 sn0 h => hfacts k0 sn0 (List.mem_cons_of_mem _ h)
      simp [sync_items, h1, h2, SyncStats.zero]

/-- After a source loop that reported no errors, every processed entry
satisfies its pass postcondition in the final replica listing.  `IH` is the
strong-induction hypothesis that zero-error recursive passes are repeatable
as the identity. -/
theorem sync_items_post (F : Faults) (hash : List Nat → Nat) (B : Nat)
    (IH : ∀ (sp rp : Path) (ses : List (String × Node)) (rep : Option Node),
      sizeOf ses < B → nodupNames ses = true → wfEntriesB ses = true →
      (sync_level F hash sp rp ses rep).2.errors = 0 →
      sync_level F hash sp rp ses
          (some (sync_level F hash sp rp ses rep).1) =
        ((sync_level F hash sp rp ses rep).1, SyncStats.zero)) :
    ∀ (sp rp : Path) (l R : List (String × Node)),
      (∀ e ∈ l, sizeOf e.2 < B ∧ wfB e.2 = true) →
      nodupNames l = true →
      (sync_items F hash sp rp l R).2.errors = 0 →
      ∀ k sn, (k, sn) ∈ l →
        secondPassFact F hash sp rp k sn (sync_items F hash sp rp l R).1 := by
  intro sp rp l
  induction l with
  | nil => intro R _ _ _ k sn h; simp at h
  | cons e rest ih =>
      obtain ⟨k0, sn0⟩ := e
      intro R hszwf hnd herr k sn hmem
      simp only [nodupNames] at hnd
      have hnd1 := (Bool.and_eq_true_iff.mp hnd).1
      have hnd2 := (Bool.and_eq_true_iff.mp hnd).2
      have hfresh : memName (rest.map Prod.fst) k0 = false := by
        cases hb : memName (rest.map Prod.fst) k0
        · rfl
        · rw [hb] at hnd1
          simp at hnd1
      have hconv : (sync_items F hash sp rp ((k0, sn0) :: rest) R).1 =
          (sync_items F hash sp rp rest
            (sync_item F hash sp rp k0 sn0 R).1).1 := by
        simp [sync_items]
      have herrs : (sync_item F hash sp rp k0 sn0 R).2.errors = 0 ∧
          (sync_items F hash sp rp rest
            (sync_item F hash sp rp k0 sn0 R).1).2.errors = 0 := by
        have : (sync_items F hash sp rp ((k0, sn0) :: rest) R).2.errors =
            (sync_item F hash sp rp k0 sn0 R).2.errors +
            (sync_items F hash sp rp rest
              (sync_item F hash sp rp k0 sn0 R).1).2.errors := by
          simp [sync_items, errors_add]
        rw [this] at herr
        omega
      rcases List.mem_cons.mp hmem with hhead | htail
      · have hk : k = k0 := by
          have := congrArg Prod.fst hhead
          simpa using this
        have hsn : sn = sn0 := by
          have := congrArg Prod.snd hhead
          simpa using this
        subst hk
        subst hsn
        rw [hconv]
        have hlook := lookup_sync_items_not_source F hash sp rp rest
          (sync_item F hash sp rp k sn R).1 k hfresh
        cases sn with
        | other => trivial
        | file c m =>
            by_cases hf : F.itemFails (sp ++ [k])
            · exfalso
              have h1 : (sync_item F hash sp rp k (Node.file c m) R).2.errors
                  = 1 := by simp [sync_item, hf]
              have h0 := herrs.1
              omega
            · rcases hnc : needs_copy hash (Node.file c m) (lookupEntry R k)
                with _ | b
              · exfalso
                have h1 : (sync_item F hash sp rp k (Node.file c m) R).2.errors
                    = 1 := by simp [sync_item, if_neg hf, hnc]
                have h0 := herrs.1
                omega
              · cases b
                · -- no copy needed: replica already holds a hash-equal file
                  have hR : (sync_item F hash sp rp k (Node.file c m) R).1
                      = R := by simp [sync_item, if_neg hf, hnc]
                  cases hl : lookupEntry R k with
                  | none => rw [hl] at hnc; simp [needs_copy] at hnc
                  | some r =>
                      cases r with
                      | file c1 m1 =>
                          refine ⟨Bool.eq_false_iff.mpr hf, c1, m1, ?_, ?_⟩
                          · rw [hlook, hR, hl]
                          · rw [hl] at hnc
                            simp [needs_copy, calculate_md5] at hnc
                            exact hnc.symm
                      | dir es =>
                          rw [hl] at hnc
                          simp [needs_copy, calculate_md5] at hnc
                      | other =>
                          rw [hl] at hnc
                          simp [needs_copy, calculate_md5] at hnc
                · -- copy performed: the replica now holds the source file
                  have hR : (sync_item F hash sp rp k (Node.file c m) R).1
                      = setEntry R k (Node.file c m) := by
                    simp [sync_item, if_neg hf, hnc, lookupEntry_setEntry_self]
                  refine ⟨Bool.eq_false_iff.mpr hf, c, m, ?_, rfl⟩
                  rw [hlook, hR, lookupEntry_setEntry_self]
        | dir ses1 =>
            have hR : (sync_item F hash sp rp k (Node.dir ses1) R).1 =
                setEntry R k (sync_level F hash (sp ++ [k]) (rp ++ [k]) ses1
                  (lookupEntry R k)).1 := by
              simp [sync_item]
            have hsuberr : (sync_level F hash (sp ++ [k]) (rp ++ [k]) ses1
                (lookupEntry R k)).2.errors = 0 := by
              have : (sync_item F hash sp rp k (Node.dir ses1) R).2.errors =
                  (sync_level F hash (sp ++ [k]) (rp ++ [k]) ses1
                    (lookupEntry R k)).2.errors := by
                simp [sync_item]
              rw [this] at herrs
              exact herrs.1
            have hszwf0 := hszwf (k, Node.dir ses1) (List.mem_cons_self _ _)
            have hwfd := hszwf0.2
            have hid := IH (sp ++ [k]) (rp ++ [k]) ses1 (lookupEntry R k)
              (by
                have := hszwf0.1
                simp at this ⊢
                omega)
              (Bool.and_eq_true_iff.mp (by simpa [wfB] using hwfd)).1
              (Bool.and_eq_true_iff.mp (by simpa [wfB] using hwfd)).2
              hsuberr
            refine ⟨(sync_level F hash (sp ++ [k]) (rp ++ [k]) ses1
              (lookupEntry R k)).1, ?_, hid⟩
            rw [hlook, hR, lookupEntry_setEntry_self]
      · have := ih (sync_item F hash sp rp k0 sn0 R).1
          (fun e he => hszwf e (List.mem_cons_of_mem _ he)) hnd2
          herrs.2 k sn htail
        rw [hconv]
        exact this

/-- Core of C4: a level pass that reported zero errors is repeatable — the
same level run again on its own output replica returns that replica
unchanged with all-zero stats. -/
theorem second_pass_level (F : Faults) (hash : List Nat → Nat) :
    ∀ (B : Nat) (sp rp : Path) (ses : List (String × Node)) (rep : Option Node),
      sizeOf ses < B → nodupNames ses = true → wfEntriesB ses = true →
      (sync_level F hash sp rp ses rep).2.errors = 0 →
      sync_level F hash sp rp ses
          (some (sync_level F hash sp rp ses rep).1) =
        ((sync_level F hash sp rp ses rep).1, SyncStats.zero) := by
  intro B
  induction B with
  | zero => intro sp rp ses rep h; omega
  | succ B ihB =>
      intro sp rp ses rep hsz hnd hwf herr
      cases hsp : F.listFails sp with
      | true =>
          rw [sync_level_listing_error F hash sp rp ses rep
            (by simp [hsp])] at herr
          simp at herr
      | false =>
      cases hcr : create_directory_if_missing rep with
      | file c m =>
          have hbad : sync_level F hash sp rp ses rep =
              (Node.file c m, ⟨0, 0, 0, 1⟩) := by
            simp [sync_level, hsp, hcr]
          rw [hbad] at herr
          simp at herr
      | other =>
          have hbad : sync_level F hash sp rp ses rep =
              (Node.other, ⟨0, 0, 0, 1⟩) := by
            simp [sync_level, hsp, hcr]
          rw [hbad] at herr
          simp at herr
      | dir res =>
      cases hrp : F.listFails rp with
      | true =>
          rw [sync_level_listing_error F hash sp rp ses rep
            (by simp [hrp])] at herr
          simp at herr
      | false =>
          have heq := sync_level_eq_ok F hash sp rp ses rep res hsp hrp hcr
          rw [heq, errors_add] at herr
          have hremerr : (remove_outdated_items F rp (ses.map Prod.fst)
              res).2.errors = 0 := by omega
          have houterr : (sync_items F hash sp rp ses
              (remove_outdated_items F rp (ses.map Prod.fst)
                res).1).2.errors = 0 := by omega
          have hfacts := sync_items_post F hash B ihB sp rp ses
            (remove_outdated_items F rp (ses.map Prod.fst) res).1
            (fun e he => ⟨by
                have h1 := sizeOf_snd_lt_of_mem ses e he
                omega,
              (wfEntriesB_iff ses).mp hwf e he⟩)
            hnd houterr
          have hkeys : ∀ e ∈ (sync_items F hash sp rp ses
              (remove_outdated_items F rp (ses.map Prod.fst) res).1).1,
              memName (ses.map Prod.fst) e.1 = true ∨ e.2 = Node.other := by
            intro e he
            rcases mem_sync_items F hash sp rp ses _ e he with h | h
            · exact remove_errors_zero_keys F rp _ res hremerr e h
            · exact Or.inl h
          have hrem2 := remove_identity F rp (ses.map Prod.fst) _ hkeys
          have hitems2 := sync_items_identity F hash sp rp ses _ hfacts
          have hfst : (sync_level F hash sp rp ses rep).1 =
              Node.dir (sync_items F hash sp rp ses
                (remove_outdated_items F rp (ses.map Prod.fst) res).1).1 := by
            rw [heq]
          rw [hfst]
          have heq2 := sync_level_eq_ok F hash sp rp ses
            (some (Node.dir (sync_items F hash sp rp ses
              (remove_outdated_items F rp (ses.map Prod.fst) res).1).1))
            (sync_items F hash sp rp ses
              (remove_outdated_items F rp (ses.map Prod.fst) res).1).1
            hsp hrp rfl
          rw [heq2]
          have hr1 : (remove_outdated_items F rp (ses.map Prod.fst)
              (sync_items F hash sp rp ses
                (remove_outdated_items F rp (ses.map Prod.fst)
                  res).1).1).1 =
              (sync_items F hash sp rp ses
                (remove_outdated_items F rp (ses.map Prod.fst) res).1).1 := by
            rw [hrem2]
          have hr2 : (remove_outdated_items F rp (ses.map Prod.fst)
              (sync_items F hash sp rp ses
                (remove_outdated_items F rp (ses.map Prod.fst)
                  res).1).1).2 = SyncStats.zero := by
            rw [hrem2]
          rw [hr1, hr2, hitems2]
          simp [SyncStats.zero]

/-- C4 counterexample to the claim as stated: source holds a file `x` while
the replica holds a directory `x`.  The first pass completes (hashing the
replica directory raises, counted as one error) and leaves both trees
unchanged, so the source is unchanged for the second pass — yet the second
pass returns stats {0, 0, 0, 1}, not {0, 0, 0, 0}. -/
theorem idempotence_cex :
    (sync_folders noFaults sumHash ["s"] ["r"]
        (sync_folders noFaults sumHash ["s"] ["r"]
          (some (Node.dir [("x", Node.file [1] 0)]))
          (some (Node.dir [("x", Node.dir [])]))).1
        (some (sync_folders noFaults sumHash ["s"] ["r"]
          (some (Node.dir [("x", Node.file [1] 0)]))
          (some (Node.dir [("x", Node.dir [])]))).2.1)).2.2 ≠
      SyncStats.zero := by
  simp [sync_folders, sync_level, sync_items, sync_item,
    remove_outdated_items, needs_copy, calculate_md5, noFaults,
    create_directory_if_missing, SyncStats.zero]

/-- C4 amended: if a pass over a well-formed source tree completes with
zero errors, a second pass with the source tree unchanged returns the same
source and replica trees and stats {copied 0, updated 0, deleted 0,
errors 0} — no copies, updates or deletions on the converged replica. -/
theorem second_pass_zero (F : Faults) (hash : List Nat → Nat) (sp rp : Path)
    (src rep : Option Node) (hwf : wfOptB src = true)
    (herr : (sync_folders F hash sp rp src rep).2.2.errors = 0) :
    sync_folders F hash sp rp (sync_folders F hash sp rp src rep).1
        (some (sync_folders F hash sp rp src rep).2.1) =
      ((sync_folders F hash sp rp src rep).1,
       (sync_folders F hash sp rp src rep).2.1, SyncStats.zero) := by
  have main : ∀ (ses : List (String × Node)), nodupNames ses = true →
      wfEntriesB ses = true →
      (sync_folders F hash sp rp (some (Node.dir ses)) rep).2.2.errors = 0 →
      sync_folders F hash sp rp
          (sync_folders F hash sp rp (some (Node.dir ses)) rep).1
          (some (sync_folders F hash sp rp (some (Node.dir ses)) rep).2.1) =
        ((sync_folders F hash sp rp (some (Node.dir ses)) rep).1,
         (sync_folders F hash sp rp (some (Node.dir ses)) rep).2.1,
         SyncStats.zero) := by
    intro ses h1 h2 herr2
    have herr3 : (sync_level F hash sp rp ses rep).2.errors = 0 := by
      simpa [sync_folders, create_directory_if_missing] using herr2
    have hlev := second_pass_level F hash (sizeOf ses + 1) sp rp ses rep
      (by omega) h1 h2 herr3
    simp [sync_folders, create_directory_if_missing, hlev]
  cases src with
  | none =>
      have h0 : (none : Option Node) = none := rfl
      have : sync_folders F hash sp rp none rep =
          sync_folders F hash sp rp (some (Node.dir [])) rep := by
        simp [sync_folders, create_directory_if_missing]
      rw [this]
      exact main [] rfl rfl (by rw [← this]; exact herr)
  | some s =>
      cases s with
      | file c m =>
          exfalso
          have : (sync_folders F hash sp rp (some (Node.file c m))
              rep).2.2.errors = 1 := by
            simp [sync_folders, create_directory_if_missing]
          rw [this] at herr
          exact Nat.noConfusion herr
      | other =>
          exfalso
          have : (sync_folders F hash sp rp (some Node.other)
              rep).2.2.errors = 1 := by
            simp [sync_folders, create_directory_if_missing]
          rw [this] at herr
          exact Nat.noConfusion herr
      | dir ses =>
          have hwfs : wfB (Node.dir ses) = true := by
            simpa [wfOptB] using hwf
          exact main ses
            (Bool.and_eq_true_iff.mp (by simpa [wfB] using hwfs)).1
            (Bool.and_eq_true_iff.mp (by simpa [wfB] using hwfs)).2 herr

/-- Closed instance of `second_pass_zero`: after a clean first pass copying
`a` into an empty replica, the second pass reports all-zero stats. -/
theorem second_pass_zero_witness :
    (sync_folders noFaults sumHash ["s"] ["r"]
        (sync_folders noFaults sumHash ["s"] ["r"]
          (some (Node.dir [("a", Node.file [1] 0)])) (some (Node.dir []))).1
        (some (sync_folders noFaults sumHash ["s"] ["r"]
          (some (Node.dir [("a", Node.file [1] 0)]))
          (some (Node.dir []))).2.1)).2.2 = SyncStats.zero := by
  have h := second_pass_zero noFaults sumHash ["s"] ["r"]
    (some (Node.dir [("a", Node.file [1] 0)])) (some (Node.dir []))
    (by simp [wfOptB, wfB, wfEntriesB, nodupNames, memName])
    (by simp [sync_folders, sync_level, sync_items, sync_item,
      remove_outdated_items, needs_copy, calculate_md5, noFaults,
      create_directory_if_missing, SyncStats.zero])
  rw [h]

/-! ## Claim C1 — the mirror invariant on clean trees -/

theorem clean_setEntry (R : List (String × Node)) (k : String) (v : Node)
    (hR : cleanEntriesB R = true) (hv : cleanB v = true) :
    cleanEntriesB (setEntry R k v) = true := by
  rw [cleanEntriesB_iff]
  intro e he
  rcases mem_setEntry R k v e he with h | h
  · exact (cleanEntriesB_iff R).mp hR e h
  · rw [h]
    exact hv

theorem clean_remove (F : Faults) (rp : Path) (snames : List String)
    (res : List (String × Node)) (h : cleanEntriesB res = true) :
    cleanEntriesB (remove_outdated_items F rp snames res).1 = true := by
  rw [cleanEntriesB_iff]
  intro e he
  exact (cleanEntriesB_iff res).mp h e (remove_mem_of_mem F rp snames res e he)

/-- Cleanliness is preserved level by level: a pass over clean trees leaves
a clean replica, whatever faults occur. -/
theorem clean_preserved_items (F : Faults) (hash : List Nat → Nat) (B : Nat)
    (IH : ∀ (sp rp : Path) (ses : List (String × Node)) (rep : Option Node),
      sizeOf ses < B → cleanEntriesB ses = true → cleanOptB rep = true →
      cleanB (sync_level F hash sp rp ses rep).1 = true) :
    ∀ (sp rp : Path) (l R : List (String × Node)),
      (∀ e ∈ l, sizeOf e.2 < B ∧ cleanB e.2 = true) →
      cleanEntriesB R = true →
      cleanEntriesB (sync_items F hash sp rp l R).1 = true := by
  intro sp rp l
  induction l with
  | nil => intro R _ hR; simpa [sync_items] using hR
  | cons e rest ih =>
      obtain ⟨k, sn⟩ := e
      intro R hfacts hR
      have hstep : cleanEntriesB (sync_item F hash sp rp k sn R).1 = true := by
        cases sn with
        | file c m =>
            by_cases hf : F.itemFails (sp ++ [k])
            · simpa [sync_item, hf] using hR
            · rcases hnc : needs_copy hash (Node.file c m) (lookupEntry R k)
                with _ | b
              · simpa [sync_item, if_neg hf, hnc] using hR
              · cases b
                · simpa [sync_item, if_neg hf, hnc] using hR
                · simp only [sync_item, if_neg hf, hnc,
                    lookupEntry_setEntry_self]
                  exact clean_setEntry R k _ hR (by simp [cleanB])
        | dir ses1 =>
            simp only [sync_item]
            apply clean_setEntry R k _ hR
            apply IH
            · have h1 := (hfacts (k, Node.dir ses1)
                (List.mem_cons_self _ _)).1
              simp at h1 ⊢
              omega
            · have h2 := (hfacts (k, Node.dir ses1)
                (List.mem_cons_self _ _)).2
              simpa [cleanB] using h2
            · cases hl : lookupEntry R k with
              | none => simp [cleanOptB]
              | some v =>
                  have := (cleanEntriesB_iff R).mp hR (k, v)
                    (lookup_mem R k v hl)
                  simpa [cleanOptB] using this
        | other => simpa [sync_item] using hR
      have := ih (sync_item F hash sp rp k sn R).1
        (fun e he => hfacts e (List.mem_cons_of_mem _ he)) hstep
      simpa [sync_items] using this

/-- Cleanliness preservation for a whole level. -/
theorem clean_preserved_level (F : Faults) (hash : List Nat → Nat) :
    ∀ (B : Nat) (sp rp : Path) (ses : List (String × Node))
      (rep : Option Node),
      sizeOf ses < B → cleanEntriesB ses = true → cleanOptB rep = true →
      cleanB (sync_level F hash sp rp ses rep).1 = true := by
  intro B
  induction B with
  | zero => intro sp rp ses rep h; omega
  | succ B ihB =>
      intro sp rp ses rep hsz hcs hcr0
      have hcreate : cleanB (create_directory_if_missing rep) = true := by
        cases rep with
        | none => simp [create_directory_if_missing, cleanB, cleanEntriesB]
        | some r => simpa [create_directory_if_missing, cleanOptB] using hcr0
      cases hsp : F.listFails sp with
      | true =>
          rw [sync_level_listing_error F hash sp rp ses rep (by simp [hsp])]
          exact hcreate
      | false =>
      cases hcr : create_directory_if_missing rep with
      | file c m =>
          have : sync_level F hash sp rp ses rep =
              (Node.file c m, ⟨0, 0, 0, 1⟩) := by
            simp [sync_level, hsp, hcr]
          rw [this]
          simp [cleanB]
      | other =>
          rw [hcr] at hcreate
          simp [cleanB] at hcreate
      | dir res =>
      have hres : cleanEntriesB res = true := by
        rw [hcr] at hcreate
        simpa [cleanB] using hcreate
      cases hrp : F.listFails rp with
      | true =>
          rw [sync_level_listing_error F hash sp rp ses rep (by simp [hrp])]
          rw [hcr]
          simpa [cleanB] using hres
      | false =>
          rw [sync_level_eq_ok F hash sp rp ses rep res hsp hrp hcr]
          simp only [cleanB]
          apply clean_preserved_items F hash B ihB sp rp ses
          · intro e he
            refine ⟨?_, (cleanEntriesB_iff ses).mp hcs e he⟩
            have h1 := sizeOf_snd_lt_of_mem ses e he
            omega
          · exact clean_remove F rp _ res hres

/-- After a zero-error source loop over clean well-formed entries, every
source entry has a mirroring replica entry in the final listing.  `IH` is
the strong-induction hypothesis that zero-error recursive passes produce
mirrors. -/
theorem sync_items_mirror (F : Faults) (hash : List Nat → Nat) (B : Nat)
    (IH : ∀ (sp rp : Path) (ses : List (String × Node)) (rep : Option Node),
      sizeOf ses < B → nodupNames ses = true → wfEntriesB ses = true →
      cleanEntriesB ses = true → cleanOptB rep = true →
      (sync_level F hash sp rp ses rep).2.errors = 0 →
      mirrorsB hash (Node.dir ses)
        (sync_level F hash sp rp ses rep).1 = true) :
    ∀ (sp rp : Path) (l R : List (String × Node)),
      (∀ e ∈ l, sizeOf e.2 < B ∧ wfB e.2 = true ∧ cleanB e.2 = true) →
      nodupNames l = true → cleanEntriesB R = true →
      (sync_items F hash sp rp l R).2.errors = 0 →
      ∀ k sn, (k, sn) ∈ l → ∃ rn,
        lookupEntry (sync_items F hash sp rp l R).1 k = some rn ∧
        mirrorsB hash sn rn = true := by
  intro sp rp l
  induction l with
  | nil => intro R _ _ _ _ k sn h; simp at h
  | cons e rest ih =>
      obtain ⟨k0, sn0⟩ := e
      intro R hszwf hnd hcR herr k sn hmem
      simp only [nodupNames] at hnd
      have hnd1 := (Bool.and_eq_true_iff.mp hnd).1
      have hnd2 := (Bool.and_eq_true_iff.mp hnd).2
      have hfresh : memName (rest.map Prod.fst) k0 = false := by
        cases hb : memName (rest.map Prod.fst) k0
        · rfl
        · rw [hb] at hnd1
          simp at hnd1
      have hconv : (sync_items F hash sp rp ((k0, sn0) :: rest) R).1 =
          (sync_items F hash sp rp rest
            (sync_item F hash sp rp k0 sn0 R).1).1 := by
        simp [sync_items]
      have herrs : (sync_item F hash sp rp k0 sn0 R).2.errors = 0 ∧
          (sync_items F hash sp rp rest
            (sync_item F hash sp rp k0 sn0 R).1).2.errors = 0 := by
        have : (sync_items F hash sp rp ((k0, sn0) :: rest) R).2.errors =
            (sync_item F hash sp rp k0 sn0 R).2.errors +
            (sync_items F hash sp rp rest
              (sync_item F hash sp rp k0 sn0 R).1).2.errors := by
          simp [sync_items, errors_add]
        rw [this] at herr
        omega
      rcases List.mem_cons.mp hmem with hhead | htail
      · have hk : k = k0 := by
          have := congrArg Prod.fst hhead
          simpa using this
        have hsn : sn = sn0 := by
          have := congrArg Prod.snd hhead
          simpa using this
        subst hk
        subst hsn
        rw [hconv]
        have hlook := lookup_sync_items_not_source F hash sp rp rest
          (sync_item F hash sp rp k sn R).1 k hfresh
        cases sn with
        | other =>
            have := (hszwf (k, Node.other) (List.mem_cons_self _ _)).2.2
            simp [cleanB] at this
        | file c m =>
            by_cases hf : F.itemFails (sp ++ [k])
            · exfalso
              have h1 : (sync_item F hash sp rp k (Node.file c m) R).2.errors
                  = 1 := by simp [sync_item, hf]
              have h0 := herrs.1
              omega
            · rcases hnc : needs_copy hash (Node.file c m) (lookupEntry R k)
                with _ | b
              · exfalso
                have h1 : (sync_item F hash sp rp k
                    (Node.file c m) R).2.errors = 1 := by
                  simp [sync_item, if_neg hf, hnc]
                have h0 := herrs.1
                omega
              · cases b
                · have hR : (sync_item F hash sp rp k (Node.file c m) R).1
                      = R := by simp [sync_item, if_neg hf, hnc]
                  cases hl : lookupEntry R k with
                  | none => rw [hl] at hnc; simp [needs_copy] at hnc
                  | some r =>
                      cases r with
                      | file c1 m1 =>
                          refine ⟨Node.file c1 m1, ?_, ?_⟩
                          · rw [hlook, hR, hl]
                          · rw [hl] at hnc
                            simp [needs_copy, calculate_md5] at hnc
                            simp [mirrorsB, hnc]
                      | dir es =>
                          rw [hl] at hnc
                          simp [needs_copy, calculate_md5] at hnc
                      | other =>
                          rw [hl] at hnc
                          simp [needs_copy, calculate_md5] at hnc
                · have hR : (sync_item F hash sp rp k (Node.file c m) R).1
                      = setEntry R k (Node.file c m) := by
                    simp [sync_item, if_neg hf, hnc, lookupEntry_setEntry_self]
                  refine ⟨Node.file c m, ?_, ?_⟩
                  · rw [hlook, hR, lookupEntry_setEntry_self]
                  · simp [mirrorsB]
        | dir ses1 =>
            have hR : (sync_item F hash sp rp k (Node.dir ses1) R).1 =
                setEntry R k (sync_level F hash (sp ++ [k]) (rp ++ [k]) ses1
                  (lookupEntry R k)).1 := by
              simp [sync_item]
            have hsuberr : (sync_level F hash (sp ++ [k]) (rp ++ [k]) ses1
                (lookupEntry R k)).2.errors = 0 := by
              have : (sync_item F hash sp rp k (Node.dir ses1) R).2.errors =
                  (sync_level F hash (sp ++ [k]) (rp ++ [k]) ses1
                    (lookupEntry R k)).2.errors := by
                simp [sync_item]
              rw [this] at herrs
              exact herrs.1
            have hszwf0 := hszwf (k, Node.dir ses1) (List.mem_cons_self _ _)
            have hmir := IH (sp ++ [k]) (rp ++ [k]) ses1 (lookupEntry R k)
              (by
                have := hszwf0.1
                simp at this ⊢
                omega)
              (Bool.and_eq_true_iff.mp (by simpa [wfB] using hszwf0.2.1)).1
              (Bool.and_eq_true_iff.mp (by simpa [wfB] using hszwf0.2.1)).2
              (by simpa [cleanB] using hszwf0.2.2)
              (by
                cases hl : lookupEntry R k with
                | none => simp [cleanOptB]
                | some v =>
                    have := (cleanEntriesB_iff R).mp hcR (k, v)
                      (lookup_mem R k v hl)
                    simpa [cleanOptB] using this)
              hsuberr
            refine ⟨(sync_level F hash (sp ++ [k]) (rp ++ [k]) ses1
              (lookupEntry R k)).1, ?_, hmir⟩
            rw [hlook, hR, lookupEntry_setEntry_self]
      · have hstep : cleanEntriesB (sync_item F hash sp rp k0 sn0 R).1 =
            true := by
          have hCP : ∀ (sp1 rp1 : Path) (ses1 : List (String × Node))
              (rep1 : Option Node), sizeOf ses1 < B →
              cleanEntriesB ses1 = true → cleanOptB rep1 = true →
              cleanB (sync_level F hash sp1 rp1 ses1 rep1).1 = true := by
            intro sp1 rp1 ses1 rep1 h1 h2 h3
            exact clean_preserved_level F hash B sp1 rp1 ses1 rep1 h1 h2 h3
          have := clean_preserved_items F hash B hCP sp rp [(k0, sn0)] R
            (by
              intro e he
              simp only [List.mem_singleton] at he
              subst he
              have h0 := hszwf (k0, sn0) (List.mem_cons_self _ _)
              exact ⟨h0.1, h0.2.2⟩)
            hcR
          simpa [sync_items] using this
        have := ih (sync_item F hash sp rp k0 sn0 R).1
          (fun e he => hszwf e (List.mem_cons_of_mem _ he)) hnd2 hstep
          herrs.2 k sn htail
        rw [hconv]
        exact this

/-- Core of C1: a level pass over clean well-formed trees that reports zero
errors leaves the replica a mirror of the source level. -/
theorem mirror_level (F : Faults) (hash : List Nat → Nat) :
    ∀ (B : Nat) (sp rp : Path) (ses : List (String × Node))
      (rep : Option Node),
      sizeOf ses < B → nodupNames ses = true → wfEntriesB ses = true →
      cleanEntriesB ses = true → cleanOptB rep = true →
      (sync_level F hash sp rp ses rep).2.errors = 0 →
      mirrorsB hash (Node.dir ses)
        (sync_level F hash sp rp ses rep).1 = true := by
  intro B
  induction B with
  | zero => intro sp rp ses rep h; omega
  | succ B ihB =>
      intro sp rp ses rep hsz hnd hwf hcs hcr0 herr
      cases hsp : F.listFails sp with
      | true =>
          rw [sync_level_listing_error F hash sp rp ses rep
            (by simp [hsp])] at herr
          simp at herr
      | false =>
      cases hcr : create_directory_if_missing rep with
      | file c m =>
          have hbad : sync_level F hash sp rp ses rep =
              (Node.file c m, ⟨0, 0, 0, 1⟩) := by
            simp [sync_level, hsp, hcr]
          rw [hbad] at herr
          simp at herr
      | other =>
          have hbad : sync_level F hash sp rp ses rep =
              (Node.other, ⟨0, 0, 0, 1⟩) := by
            simp [sync_level, hsp, hcr]
          rw [hbad] at herr
          simp at herr
      | dir res =>
      have hres : cleanEntriesB res = true := by
        cases rep with
        | none =>
            simp only [create_directory_if_missing] at hcr
            injection hcr with h
            rw [← h]
            rfl
        | some r =>
            simp only [create_directory_if_missing] at hcr
            subst hcr
            simpa [cleanOptB, cleanB] using hcr0
      cases hrp : F.listFails rp with
      | true =>
          rw [sync_level_listing_error F hash sp rp ses rep
            (by simp [hrp])] at herr
          simp at herr
      | false =>
          have heq := sync_level_eq_ok F hash sp rp ses rep res hsp hrp hcr
          have herr2 := herr
          rw [heq, errors_add] at herr2
          have hremerr : (remove_outdated_items F rp (ses.map Prod.fst)
              res).2.errors = 0 := by omega
          have houterr : (sync_items F hash sp rp ses
              (remove_outdated_items F rp (ses.map Prod.fst)
                res).1).2.errors = 0 := by omega
          have hfst : (sync_level F hash sp rp ses rep).1 =
              Node.dir (sync_items F hash sp rp ses
                (remove_outdated_items F rp (ses.map Prod.fst) res).1).1 := by
            rw [heq]
          rw [hfst]
          have hcov : sourceCovered hash ses
              (sync_items F hash sp rp ses
                (remove_outdated_items F rp (ses.map Prod.fst)
                  res).1).1 = true := by
            rw [sourceCovered_iff]
            intro e he
            obtain ⟨k, sn⟩ := e
            exact sync_items_mirror F hash B ihB sp rp ses
              (remove_outdated_items F rp (ses.map Prod.fst) res).1
              (fun e1 he1 => ⟨by
                  have h1 := sizeOf_snd_lt_of_mem ses e1 he1
                  omega,
                (wfEntriesB_iff ses).mp hwf e1 he1,
                (cleanEntriesB_iff ses).mp hcs e1 he1⟩)
              hnd (clean_remove F rp _ res hres) houterr k sn he
          have hnames : replicaNamesOk ses
              (sync_items F hash sp rp ses
                (remove_outdated_items F rp (ses.map Prod.fst)
                  res).1).1 = true := by
            rw [replicaNamesOk_iff]
            intro e he
            rcases mem_sync_items F hash sp rp ses _ e he with h | h
            · rcases remove_errors_zero_keys F rp _ res hremerr e h
                with h1 | h1
              · exact h1
              · exfalso
                have h2 := (cleanEntriesB_iff res).mp hres e
                  (remove_mem_of_mem F rp _ res e h)
                rw [h1] at h2
                simp [cleanB] at h2
            · exact h
          simp [mirrorsB, hcov, hnames]

/-- C1 counterexample to the claim as stated: an empty source and a replica
holding a single entry `x` that is neither a regular file nor a directory.
The fault-free pass reports zero errors, yet the replica still holds the
extra entry `x` with no source counterpart afterwards — it is not a strict
mirror of the source. -/
theorem mirror_invariant_cex :
    (sync_folders noFaults sumHash ["s"] ["r"] (some (Node.dir []))
      (some (Node.dir [("x", Node.other)]))).2.2.errors = 0 ∧
    (sync_folders noFaults sumHash ["s"] ["r"] (some (Node.dir []))
      (some (Node.dir [("x", Node.other)]))).2.1 =
      Node.dir [("x", Node.other)] ∧
    mirrorsB sumHash (Node.dir []) (Node.dir [("x", Node.other)]) = false := by
  refine ⟨?_, ?_, ?_⟩ <;>
    simp [sync_folders, sync_level, sync_items, remove_outdated_items,
      noFaults, create_directory_if_missing, SyncStats.zero, mirrorsB,
      sourceCovered, replicaNamesOk, memName]

/-- C1 amended: for source and replica trees whose entries are all regular
files or directories (with the unique names a real listing has), a pass
that completes with zero errors leaves the replica a mirror of the source:
every source entry has a replica counterpart of the same name and kind with
equal content hash, recursively through the directory structure, and every
replica entry name corresponds to a source entry — no extra replica entries
remain. -/
theorem mirror_invariant_clean (F : Faults) (hash : List Nat → Nat)
    (sp rp : Path) (src rep : Option Node)
    (hwf : wfOptB src = true) (hcs : cleanOptB src = true)
    (hcrep : cleanOptB rep = true)
    (herr : (sync_folders F hash sp rp src rep).2.2.errors = 0) :
    mirrorsB hash (create_directory_if_missing src)
      (sync_folders F hash sp rp src rep).2.1 = true := by
  cases src with
  | none =>
      have h2 : (sync_folders F hash sp rp none rep).2.1 =
          (sync_level F hash sp rp [] rep).1 := by
        simp [sync_folders, create_directory_if_missing]
      have herr3 : (sync_level F hash sp rp [] rep).2.errors = 0 := by
        simpa [sync_folders, create_directory_if_missing] using herr
      rw [show create_directory_if_missing (none : Option Node) =
        Node.dir [] from rfl, h2]
      exact mirror_level F hash (sizeOf ([] : List (String × Node)) + 1)
        sp rp [] rep (by omega) rfl rfl rfl hcrep herr3
  | some s =>
      cases s with
      | file c m =>
          exfalso
          have : (sync_folders F hash sp rp (some (Node.file c m))
              rep).2.2.errors = 1 := by
            simp [sync_folders, create_directory_if_missing]
          rw [this] at herr
          exact Nat.noConfusion herr
      | other =>
          exfalso
          have : (sync_folders F hash sp rp (some Node.other)
              rep).2.2.errors = 1 := by
            simp [sync_folders, create_directory_if_missing]
          rw [this] at herr
          exact Nat.noConfusion herr
      | dir ses =>
          have hwfs : wfB (Node.dir ses) = true := by
            simpa [wfOptB] using hwf
          have herr3 : (sync_level F hash sp rp ses rep).2.errors = 0 := by
            simpa [sync_folders, create_directory_if_missing] using herr
          have h2 : (sync_folders F hash sp rp (some (Node.dir ses))
              rep).2.1 = (sync_level F hash sp rp ses rep).1 := by
            simp [sync_folders, create_directory_if_missing]
          rw [show create_directory_if_missing (some (Node.dir ses)) =
            Node.dir ses from rfl, h2]
          exact mirror_level F hash (sizeOf ses + 1) sp rp ses rep (by omega)
            (Bool.and_eq_true_iff.mp (by simpa [wfB] using hwfs)).1
            (Bool.and_eq_true_iff.mp (by simpa [wfB] using hwfs)).2
            (by simpa [cleanB] using (show cleanB (Node.dir ses) = true by
              simpa [cleanOptB] using hcs))
            hcrep herr3

/-- Closed instance of `mirror_invariant_clean`: a two-level clean source
tree synced over a replica holding one stale file ends as a mirror. -/
theorem mirror_invariant_clean_witness :
    mirrorsB sumHash
      (create_directory_if_missing (some (Node.dir
        [("a.txt", Node.file helloBytes 0),
         ("sub", Node.dir [("b", Node.file [1, 2] 3)])])))
      (sync_folders noFaults sumHash ["s"] ["r"]
        (some (Node.dir
          [("a.txt", Node.file helloBytes 0),
           ("sub", Node.dir [("b", Node.file [1, 2] 3)])]))
        (some (Node.dir [("old", Node.file [9] 9)]))).2.1 = true := by
  exact mirror_invariant_clean noFaults sumHash ["s"] ["r"]
    (some (Node.dir
      [("a.txt", Node.file helloBytes 0),
       ("sub", Node.dir [("b", Node.file [1, 2] 3)])]))
    (some (Node.dir [("old", Node.file [9] 9)]))
    (by simp [wfOptB, wfB, wfEntriesB, nodupNames, memName])
    (by simp [cleanOptB, cleanB, cleanEntriesB])
    (by simp [cleanOptB, cleanB, cleanEntriesB])
    (by simp [sync_folders, sync_level, sync_items, sync_item,
      remove_outdated_items, needs_copy, calculate_md5, noFaults,
      create_directory_if_missing, SyncStats.zero])

end SyncScript
